import Mathlib

/-!
Verification of the operation-queue / retry / circuit-breaker core of the
ai-staff-dev-agent backend.

The definitions below are a shallow embedding of:
  * src/backend/app/models/operations.py   (Operation and friends)
  * src/backend/app/models/errors.py       (ErrorCode, RetryStrategy, OperationError)
  * src/backend/app/services/operation_queue.py (PriorityQueue, OperationQueueManager)
  * src/backend/app/services/retry_strategies.py (calculate_delay, CircuitBreaker)
  * src/backend/app/services/retry_handler.py  (RetryHandler bookkeeping)

Modelling conventions:
  * datetime values are integer timestamps (seconds); timedelta(minutes=5) is 300.
  * Python floats are modelled as rationals (Rat); the constants involved
    (1.0, 2.0, 60.0, powers of two) are exactly representable either way.
  * random.uniform(-0.1, 0.1) is modelled as an arbitrary rational parameter
    j with a hypothesis -1/10 <= j <= 1/10 where a theorem needs it.
  * Python dicts carrying operation metadata are association lists.
  * The heapq module functions used by PriorityQueue (heappush, heappop and
    their helpers _siftdown, _siftup) are translated line by line from
    CPython's heapq.py, over lists with List.set / List.getD.
-/

set_option maxHeartbeats 1000000

/-- OperationStatus from models/operations.py. -/
inductive OperationStatus where
  | queued
  | running
  | completed
  | failed
  | cancelled
  | retrying
  | suspended
deriving DecidableEq, Repr

/-- OperationPriority from models/operations.py. -/
inductive OperationPriority where
  | high
  | normal
  | low
deriving DecidableEq, Repr

/-- RetryStrategy from models/errors.py. -/
inductive RetryStrategy where
  | noRetry
  | immediate
  | linearBackoff
  | exponentialBackoff
deriving DecidableEq, Repr

/-- ErrorCode from models/errors.py. -/
inductive ErrorCode where
  | unknown
  | internalError
  | invalidRequest
  | notFound
  | unauthorized
  | forbidden
  | validationError
  | operationFailed
  | operationTimeout
  | operationCancelled
  | operationNotSupported
  | resourceNotFound
  | resourceExists
  | resourceBusy
  | resourceExhausted
  | agentNotFound
  | agentUnavailable
  | agentError
  | capabilityNotFound
  | projectNotFound
  | projectExists
  | projectError
  | systemError
  | networkError
  | databaseError
  | fileSystemError
deriving DecidableEq, Repr

/-- Values stored in an operation's metadata / result dictionaries. -/
inductive MetaVal where
  | natV (n : Nat)
  | strV (s : String)
  | ratV (q : Rat)
deriving DecidableEq, Repr

/-- Association-list lookup, modelling Python dict.get (first binding wins;
the update discipline below keeps keys unique anyway). -/
def afind {α : Type} : List (String × α) → String → Option α
  | [], _ => none
  | (k, v) :: rest, key => if k = key then some v else afind rest key

/-- Association-list update, modelling Python dict item assignment. -/
def aset {α : Type} : List (String × α) → String → α → List (String × α)
  | [], key, v => [(key, v)]
  | (k, w) :: rest, key, v =>
      if k = key then (k, v) :: rest else (k, w) :: aset rest key v

/-- Association-list removal, modelling Python dict.pop(key, None): the key
is absent afterwards. -/
def aremove {α : Type} : List (String × α) → String → List (String × α)
  | [], _ => []
  | (k, w) :: rest, key =>
      if k = key then aremove rest key else (k, w) :: aremove rest key

/-- Operation from models/operations.py.  The error context object and the
UUID machinery are irrelevant to the queue manager and omitted; `type` is kept
as an optional string (the OperationType enum value). -/
structure Operation where
  id : String
  project_id : String
  agent_id : String
  type : Option String := none
  capability : String
  status : OperationStatus
  priority : OperationPriority
  progress : Rat := 0
  created_at : Int
  started_at : Option Int := none
  completed_at : Option Int := none
  error : Option String := none
  result : Option (List (String × MetaVal)) := none
  metadata : List (String × MetaVal) := []
deriving DecidableEq, Repr

/-- OperationError from models/errors.py.  The `context` field (an
ErrorContext record) is never read by the queue manager or retry machinery
and is omitted. -/
structure OperationError where
  message : String
  code : ErrorCode := .unknown
  retry_strategy : RetryStrategy := .noRetry
  max_retries : Nat := 0
deriving DecidableEq, Repr

/-- TimeoutError subclass constructor from models/errors.py (the timeout
value only goes into the omitted context). -/
def timeoutError (message : String) : OperationError :=
  { message := message, code := .operationTimeout,
    retry_strategy := .linearBackoff, max_retries := 3 }

/-- A Python exception value as seen by the worker: either a classified
OperationError or any other exception (carrying its str()). -/
inductive PyExc where
  | opError (e : OperationError)
  | other (msg : String)
deriving DecidableEq, Repr

/-- Python str(e) for an exception: OperationError passes its message to
Exception.init, so str returns the message. -/
def excMessage : PyExc → String
  | .opError e => e.message
  | .other msg => msg

/-- Entry of the PriorityQueue heap: the tuple
(priority_value, operation.created_at, operation), with the operation
represented by its id (the manager's store resolves ids to operations). -/
structure QEntry where
  pval : Nat
  created : Int
  oid : String
deriving DecidableEq, Repr

/-- Default entry used by the total list accessors. -/
def dummyEntry : QEntry := ⟨0, 0, ""⟩

/-- Python tuple comparison on heap entries.  CPython compares
(priority, created_at, operation) lexicographically; comparison never reaches
the third component when the first two differ.  On a full tie CPython would
compare the Operation objects, which do not implement ordering and raise
TypeError; theorems that depend on the comparison therefore carry
distinct-key hypotheses. -/
def eLT (a b : QEntry) : Prop :=
  a.pval < b.pval ∨ (a.pval = b.pval ∧ a.created < b.created)

instance (a b : QEntry) : Decidable (eLT a b) := by
  unfold eLT; infer_instance

/-- Total accessor for heap positions, defaulting out-of-range reads. -/
def hGet (l : List QEntry) (i : Nat) : QEntry := l.getD i dummyEntry

/-- CPython heapq._siftdown translated directly: walk the new item up from
position pos toward startpos, moving larger parents down ((pos - 1) / 2 is
CPython's (pos - 1) >> 1, the parent index). -/
def siftdown (heap : List QEntry) (startpos pos : Nat) (newitem : QEntry) :
    List QEntry :=
  if h : startpos < pos then
    if eLT newitem (hGet heap ((pos - 1) / 2)) then
      siftdown (heap.set pos (hGet heap ((pos - 1) / 2))) startpos
        ((pos - 1) / 2) newitem
    else
      heap.set pos newitem
  else
    heap.set pos newitem
termination_by pos
decreasing_by
  omega

/-- Child selection inside CPython heapq._siftup's loop: childpos starts as
the left child 2*pos+1 and moves to the right child when the right child
exists and the left child is not smaller. -/
def childSel (heap : List QEntry) (pos : Nat) : Nat :=
  if 2 * pos + 2 < heap.length ∧
      ¬ eLT (hGet heap (2 * pos + 1)) (hGet heap (2 * pos + 2)) then
    2 * pos + 2
  else
    2 * pos + 1

/-- CPython heapq._siftup's descent loop: repeatedly move the smaller child
up into the hole at pos; when the hole reaches a leaf, place newitem there
and restore the invariant with _siftdown. -/
def siftupLoop (heap : List QEntry) (startpos pos : Nat) (newitem : QEntry) :
    List QEntry :=
  if _h : 2 * pos + 1 < heap.length then
    siftupLoop (heap.set pos (hGet heap (childSel heap pos))) startpos
      (childSel heap pos) newitem
  else
    siftdown heap startpos pos newitem
termination_by heap.length - pos
decreasing_by
  simp only [List.length_set]
  unfold childSel
  split <;> omega

/-- CPython heapq._siftup. -/
def siftup (heap : List QEntry) (pos : Nat) : List QEntry :=
  siftupLoop heap pos pos (hGet heap pos)

/-- CPython heapq.heappush. -/
def heappush (heap : List QEntry) (item : QEntry) : List QEntry :=
  siftdown (heap ++ [item]) 0 heap.length item

/-- CPython heapq.heappop, with the empty case that PriorityQueue.pop guards
for returned as none instead of IndexError.  lastelt is heap.pop() (the
removed final element heap.getLastD with the remainder heap.dropLast); when
the remainder is nonempty the root is returned and lastelt is sifted down
from the root. -/
def heappop (heap : List QEntry) : Option (QEntry × List QEntry) :=
  if heap.isEmpty then none
  else if heap.dropLast.isEmpty then
    some (heap.getLastD dummyEntry, heap.dropLast)
  else
    some (hGet heap.dropLast 0,
      siftup (heap.dropLast.set 0 (heap.getLastD dummyEntry)) 0)

/-- PriorityQueue._get_priority_value from operation_queue.py.  The source
reads priority_values.get(priority, 1); the dictionary covers the whole enum
so the default 1 branch is unreachable. -/
def priorityValue : OperationPriority → Nat
  | .high => 0
  | .normal => 1
  | .low => 2

/-- Heap entry built by PriorityQueue.push for an operation. -/
def entryOf (op : Operation) : QEntry :=
  ⟨priorityValue op.priority, op.created_at, op.id⟩

/-- PriorityQueue state: the heap list plus the (never decremented)
entry_count. -/
structure PQState where
  queue : List QEntry := []
  entry_count : Nat := 0
deriving DecidableEq, Repr

/-- PriorityQueue.push. -/
def pqPush (q : PQState) (op : Operation) : PQState :=
  { queue := heappush q.queue (entryOf op), entry_count := q.entry_count + 1 }

/-- PriorityQueue.pop (returns None when the heap is empty). -/
def pqPop (q : PQState) : Option (QEntry × PQState) :=
  match heappop q.queue with
  | none => none
  | some (e, h) => some (e, { q with queue := h })

/-- PriorityQueue.remove from operation_queue.py.  The source iterates the
heap list and, at the first index i whose operation id matches, executes
heapq.heappop(self.queue[i]) — heappop applied to the tuple self.queue[i],
not to the list — whose first action heap.pop() raises AttributeError
because tuples have no pop method.  The loop falling through returns None. -/
def pqRemove : List QEntry → String → Except String (Option QEntry)
  | [], _ => .ok none
  | e :: rest, operation_id =>
      if e.oid = operation_id then
        .error "AttributeError: tuple object has no attribute pop"
      else
        pqRemove rest operation_id

/-- CPython heapq's heap invariant: no child entry compares strictly below
its parent entry. -/
def IsHeap (l : List QEntry) : Prop :=
  ∀ j, 0 < j → j < l.length → ¬ eLT (hGet l j) (hGet l ((j - 1) / 2))

/-- Actions of a PriorityQueue usage scenario: push an operation or pop. -/
inductive QAct where
  | push (op : Operation)
  | pop
deriving DecidableEq, Repr

/-- Heap entries of the pushed operations of a scenario, in push order. -/
def pushedEntries (acts : List QAct) : List QEntry :=
  acts.filterMap (fun a =>
    match a with
    | .push op => some (entryOf op)
    | .pop => none)

/-- Run a push/pop scenario against a PriorityQueue, collecting the entries
returned by pop in order. -/
def runQ : PQState → List QAct → PQState × List QEntry
  | q, [] => (q, [])
  | q, .push op :: rest => runQ (pqPush q op) rest
  | q, .pop :: rest =>
      match pqPop q with
      | none => runQ q rest
      | some (e, q1) =>
          let r := runQ q1 rest
          (r.1, e :: r.2)

/-- RetryConfig from retry_strategies.py with its defaults. -/
structure RetryConfig where
  strategy : RetryStrategy := .exponentialBackoff
  max_retries : Nat := 3
  base_delay : Rat := 1
  max_delay : Rat := 60
  jitter : Bool := true
  timeout : Option Rat := none
deriving DecidableEq, Repr

/-- calculate_delay from retry_strategies.py.  attempts is state.attempts;
jitterSample stands for the random.uniform(-0.1, 0.1) draw (theorems carry
the bound -1/10 <= jitterSample <= 1/10). -/
def calculate_delay (attempts : Nat) (config : RetryConfig)
    (jitterSample : Rat) : Rat :=
  let delay : Rat :=
    if config.strategy = .immediate then 0
    else if config.strategy = .linearBackoff then
      config.base_delay * attempts
    else if config.strategy = .exponentialBackoff then
      config.base_delay * 2 ^ ((attempts : Int) - 1)
    else
      config.base_delay
  let delay := min delay config.max_delay
  if config.jitter then delay + jitterSample * delay else delay

/-- OperationQueueManager._calculate_retry_delay from operation_queue.py:
no cap and no jitter are applied there. -/
def calculateRetryDelay (strategy : RetryStrategy) (retry_count : Nat)
    (base_delay : Rat := 1) : Rat :=
  if strategy = .immediate then 0
  else if strategy = .linearBackoff then base_delay * retry_count
  else if strategy = .exponentialBackoff then
    base_delay * 2 ^ ((retry_count : Int) - 1)
  else base_delay

/-- Circuit-breaker state strings "closed" / "open" / "half-open". -/
inductive CBStatus where
  | closed
  | opened
  | halfOpen
deriving DecidableEq, Repr

/-- CircuitBreaker from retry_strategies.py (the asyncio lock serialises
calls and needs no modelling). -/
structure CircuitBreaker where
  failure_threshold : Nat := 5
  reset_timeout : Rat := 60
  half_open_timeout : Rat := 5
  failures : Nat := 0
  last_failure_time : Option Int := none
  state : CBStatus := .closed
deriving DecidableEq, Repr

/-- CircuitBreaker._check_state. -/
def cbCheckState (cb : CircuitBreaker) (now : Int) : CircuitBreaker :=
  match cb.state, cb.last_failure_time with
  | .opened, some t =>
      if cb.reset_timeout ≤ ((now - t : Int) : Rat) then
        { cb with state := .halfOpen }
      else cb
  | _, _ => cb

/-- CircuitBreaker._record_failure. -/
def cbRecordFailure (cb : CircuitBreaker) (now : Int) : CircuitBreaker :=
  let cb1 := { cb with failures := cb.failures + 1,
                       last_failure_time := some now }
  if cb1.failure_threshold ≤ cb1.failures then { cb1 with state := .opened }
  else cb1

/-- CircuitBreaker._close. -/
def cbClose (cb : CircuitBreaker) : CircuitBreaker :=
  { cb with state := .closed, failures := 0, last_failure_time := none }

/-- Result of CircuitBreaker.call: either rejected while open (the handler
is not invoked), or the handler ran with the given success/failure. -/
inductive CBResult where
  | rejected (e : OperationError)
  | ran (success : Bool)
deriving DecidableEq, Repr

/-- CircuitBreaker.call, with the wrapped operation's outcome supplied as a
boolean (True: returns normally; False: raises). -/
def cbCall (cb : CircuitBreaker) (now : Int) (succeeds : Bool) :
    CircuitBreaker × CBResult :=
  let cb1 := cbCheckState cb now
  if cb1.state = .opened then
    (cb1, .rejected { message := "Circuit breaker is open",
                      code := .resourceBusy,
                      retry_strategy := .linearBackoff, max_retries := 3 })
  else if succeeds then
    (if cb1.state = .halfOpen then cbClose cb1 else cb1, .ran true)
  else
    (cbRecordFailure cb1 now, .ran false)

/-- Fold a sequence of timed calls through the circuit breaker. -/
def cbCallN (cb : CircuitBreaker) (calls : List (Int × Bool)) :
    CircuitBreaker :=
  calls.foldl (fun c p => (cbCall c p.1 p.2).1) cb

/-- Per-key retry bookkeeping dictionary entries of RetryHandler
(retry_handler.py, execute_with_retry's retry_counts records). -/
structure RetryCounts where
  total : Nat := 0
  consecutive_failures : Nat := 0
  last_status : Option String := none
  last_attempt : Option Int := none
deriving DecidableEq, Repr

/-- Per-key circuit-breaker records of RetryHandler._create_circuit_breaker. -/
structure BreakerRec where
  created_at : Int
  failure_count : Nat := 0
  reset_timeout : Rat := 60
  status : CBStatus := .opened
deriving DecidableEq, Repr

/-- RetryHandler's mutable dictionaries. -/
structure RetryHandlerState where
  circuit_breakers : List (String × BreakerRec) := []
  retry_counts : List (String × RetryCounts) := []
deriving DecidableEq, Repr

/-- RetryHandler._should_apply_circuit_breaker. -/
def shouldApplyCircuitBreaker (s : RetryHandlerState) (key : String)
    (now : Int) : Bool :=
  match afind s.retry_counts key with
  | none => false
  | some c =>
      if 5 ≤ c.consecutive_failures then true
      else if 10 ≤ c.total then
        match c.last_attempt with
        | some t => decide (now - t ≤ 300)
        | none => false
      else false

/-- RetryHandler._create_circuit_breaker. -/
def createCircuitBreaker (s : RetryHandlerState) (key : String) (now : Int) :
    RetryHandlerState :=
  if (afind s.circuit_breakers key).isSome then s
  else
    let b : BreakerRec :=
      { created_at := now,
        failure_count :=
          match afind s.retry_counts key with
          | some c => c.total
          | none => 0,
        reset_timeout := 60,
        status := .opened }
    { s with circuit_breakers := aset s.circuit_breakers key b }

/-- RetryHandler.execute_with_retry's bookkeeping around one overall handler
outcome (success: the wrapped retry_operation returned; failure: it raised):
initialise the key's counts, update the success/failure metrics, and on
failure create the circuit breaker when warranted. -/
def executeWithRetryRecord (s : RetryHandlerState) (key : String) (now : Int)
    (success : Bool) : RetryHandlerState :=
  let init : RetryCounts := {}
  let s1 := if (afind s.retry_counts key).isSome then s
    else { s with retry_counts := aset s.retry_counts key init }
  match afind s1.retry_counts key with
  | none => s1
  | some c =>
      if success then
        let c1 : RetryCounts :=
          { c with consecutive_failures := 0,
                   last_status := some "success",
                   last_attempt := some now }
        { s1 with retry_counts := aset s1.retry_counts key c1 }
      else
        let c1 : RetryCounts :=
          { c with total := c.total + 1,
                   consecutive_failures := c.consecutive_failures + 1,
                   last_status := some "failure",
                   last_attempt := some now }
        let s2 := { s1 with retry_counts := aset s1.retry_counts key c1 }
        if shouldApplyCircuitBreaker s2 key now then
          createCircuitBreaker s2 key now
        else s2

/-- RetryHandler.check_circuit_breaker: none means the attempt is allowed,
some e means it raises e (RESOURCE_BUSY) before any handler work. -/
def checkCircuitBreaker (s : RetryHandlerState) (key : String) (now : Int) :
    RetryHandlerState × Option OperationError :=
  match afind s.circuit_breakers key with
  | none => (s, none)
  | some b =>
      if b.status = .opened then
        if b.reset_timeout ≤ ((now - b.created_at : Int) : Rat) then
          let b1 : BreakerRec := { b with status := .halfOpen }
          ({ s with circuit_breakers := aset s.circuit_breakers key b1 },
            none)
        else
          (s, some { message := "Operation blocked by circuit breaker",
                     code := .resourceBusy,
                     retry_strategy := .linearBackoff, max_retries := 3 })
      else (s, none)

/-- OperationStats from models/operations.py. -/
structure OperationStats where
  total_count : Nat := 0
  success_count : Nat := 0
  failure_count : Nat := 0
  average_duration : Rat := 0
  min_duration : Rat := 0
  max_duration : Rat := 0
  percentile_95_duration : Rat := 0
  error_rate : Rat := 0
  throughput : Rat := 0
deriving DecidableEq, Repr

/-- OperationQueue from models/operations.py (queue status snapshot; its
metadata dict holds the error_rate and throughput rationals). -/
structure OperationQueue where
  queue_name : String
  total_operations : Nat := 0
  active_operations : Nat := 0
  waiting_operations : Nat := 0
  completed_operations : Nat := 0
  failed_operations : Nat := 0
  average_wait_time : Rat := 0
  average_processing_time : Rat := 0
  metadata : List (String × Rat) := []
deriving DecidableEq, Repr

/-- Outcome of one handler invocation, as observed at the await in
_process_operation: a result dict, a classified OperationError, any other
exception, or the asyncio.timeout deadline expiring. -/
inductive HandlerOutcome where
  | success (result : List (String × MetaVal))
  | raiseOp (e : OperationError)
  | raiseOther (msg : String)
  | timeout
deriving DecidableEq, Repr

/-- Pending retry sleep: the computed delay and the queue name of the
_process_operation frame that will run its finally block afterwards. -/
structure PendInfo where
  delay : Rat
  qname : String
deriving DecidableEq, Repr

/-- OperationQueueManager state.  queues/store/active/handlers/stats mirror
the manager's dictionaries (active_operations is keyed by operation id and
the operations themselves live in the shared store).  running and pending
record the suspended _process_operation coroutine frames (outstanding
handler awaits and retry sleeps, with their queue_name); invocations logs
every handler invocation. -/
structure MState where
  queues : List (String × PQState) := []
  store : List (String × Operation) := []
  active : List String := []
  handlers : List String := []
  running : List (String × String) := []
  pending : List (String × PendInfo) := []
  invocations : List String := []
  stats : List (String × OperationStats) := []
deriving DecidableEq, Repr

/-- Events driving the manager: register_handler, enqueue_operation, the
start of _process_operation on a queue (up to the handler await), the
completion of a handler await, and the expiry of a retry sleep.  Events
carry the datetime.utcnow() reading of the step. -/
inductive MEvent where
  | register (capability : String)
  | enqueue (op : Operation) (queue_name : String)
  | beginProcess (queue_name : String) (now : Int)
  | finishProcess (oid : String) (outcome : HandlerOutcome) (now : Int)
  | completeRetry (oid : String) (now : Int)
deriving DecidableEq, Repr

/-- metadata.get("retry_count", 0).  The manager only ever stores natural
numbers under this key. -/
def metaNat (m : List (String × MetaVal)) (k : String) : Nat :=
  match afind m k with
  | some (MetaVal.natV n) => n
  | _ => 0

/-- OperationQueueManager._update_stats, translated directly. -/
def updateStats (s : MState) (op : Operation) (queue_name : String)
    (now : Int) : MState :=
  let st := (afind s.stats queue_name).getD ({})
  let st := { st with total_count := st.total_count + 1 }
  let st :=
    if op.status = .completed then
      { st with success_count := st.success_count + 1 }
    else if op.status = .failed then
      { st with failure_count := st.failure_count + 1 }
    else st
  let st :=
    match op.completed_at, op.started_at with
    | some c, some b =>
        let duration : Rat := ((c - b : Int) : Rat)
        let st :=
          if st.total_count = 1 then
            { st with min_duration := duration, max_duration := duration }
          else
            { st with min_duration := min st.min_duration duration,
                      max_duration := max st.max_duration duration }
        { st with average_duration :=
            (st.average_duration * ((st.total_count : Rat) - 1) + duration) /
              (st.total_count : Rat) }
    | _, _ => st
  let st := { st with error_rate :=
    if 0 < st.total_count then (st.failure_count : Rat) / (st.total_count : Rat)
    else 0 }
  let recent := (s.active.filterMap (fun i => afind s.store i)).countP
    (fun o =>
      match o.completed_at with
      | some c => decide (now - 300 < c)
      | none => false)
  let st := { st with throughput := (recent : Rat) / 5 }
  { s with stats := aset s.stats queue_name st }

/-- The finally block of _process_operation: set completed_at, drop the
operation from active_operations, close the coroutine frame and update the
queue's stats. -/
def finallyBlock (s : MState) (oid queue_name : String) (now : Int) : MState :=
  match afind s.store oid with
  | none => s
  | some op =>
      let op1 := { op with completed_at := some now }
      let s1 := { s with store := aset s.store oid op1,
                         active := s.active.erase oid,
                         running := aremove s.running oid }
      updateStats s1 op1 queue_name now

/-- OperationQueueManager._retry_operation up to its suspension point: give
up when retry_count already reached max_retries (the frame then falls
through to the finally block); otherwise bump retry_count, mark RETRYING,
compute the delay and suspend in asyncio.sleep (recorded in pending). -/
def retryOperation (s : MState) (oid queue_name : String) (op : Operation)
    (e : OperationError) (now : Int) : MState :=
  let rc := metaNat op.metadata "retry_count"
  if e.max_retries ≤ rc then finallyBlock s oid queue_name now
  else
    let op1 := { op with
      metadata := aset op.metadata "retry_count" (.natV (rc + 1)),
      status := .retrying }
    { s with store := aset s.store oid op1,
             running := aremove s.running oid,
             pending := aset s.pending oid
               ({ delay := calculateRetryDelay e.retry_strategy (rc + 1) 1,
                  qname := queue_name }) }

/-- The except block of _process_operation plus _handle_operation_error:
mark FAILED, record the error string, and hand off to _retry_operation —
for a classified OperationError only when its strategy is not NO_RETRY, and
for any other exception wrapped as OperationError(str(e),
retry_strategy=EXPONENTIAL_BACKOFF, max_retries=3). -/
def errorPath (s : MState) (oid queue_name : String) (op : Operation)
    (exc : PyExc) (now : Int) : MState :=
  let op1 := { op with status := .failed, error := some (excMessage exc) }
  let s1 := { s with store := aset s.store oid op1 }
  match exc with
  | .opError e =>
      if e.retry_strategy ≠ .noRetry then
        retryOperation s1 oid queue_name op1 e now
      else finallyBlock s1 oid queue_name now
  | .other m =>
      retryOperation s1 oid queue_name op1
        { message := m, code := .unknown,
          retry_strategy := .exponentialBackoff, max_retries := 3 } now

/-- One manager step per event; see MEvent.  beginProcess covers
start_processing's peek/guard plus _process_operation up to the handler
await (the no-handler failure path has no suspension point and completes
within the step). -/
def stepM (s : MState) (ev : MEvent) : MState :=
  match ev with
  | .register capability =>
      if capability ∈ s.handlers then s
      else { s with handlers := capability :: s.handlers }
  | .enqueue op queue_name =>
      let op1 := { op with status := .queued }
      let q := (afind s.queues queue_name).getD ({})
      { s with
        store := aset s.store op.id op1,
        queues := aset s.queues queue_name
          { queue := heappush q.queue (entryOf op1),
            entry_count := q.entry_count + 1 } }
  | .beginProcess queue_name now =>
      match afind s.queues queue_name with
      | none => s
      | some q =>
          match heappop q.queue with
          | none => s
          | some (e, h1) =>
              if e.oid ∈ s.active then s
              else
                match afind s.store e.oid with
                | none => s
                | some op =>
                    let op1 := { op with status := .running,
                                         started_at := some now }
                    let s1 := { s with
                      queues := aset s.queues queue_name ({ q with queue := h1 }),
                      store := aset s.store e.oid op1,
                      active := e.oid :: s.active }
                    if op1.capability ∈ s1.handlers then
                      { s1 with running := aset s1.running e.oid queue_name,
                                invocations := s1.invocations ++ [e.oid] }
                    else
                      let op2 := { op1 with
                        status := OperationStatus.failed,
                        error := some ("No handler found for capability: " ++
                          op1.capability) }
                      finallyBlock { s1 with store := aset s1.store e.oid op2 }
                        e.oid queue_name now
  | .finishProcess oid outcome now =>
      match afind s.running oid, afind s.store oid with
      | some queue_name, some op =>
          (match outcome with
           | .success r =>
               let op1 := { op with result := some r, status := .completed }
               finallyBlock { s with store := aset s.store oid op1 }
                 oid queue_name now
           | .timeout =>
               errorPath s oid queue_name op
                 (.opError (timeoutError "Operation timed out")) now
           | .raiseOp e => errorPath s oid queue_name op (.opError e) now
           | .raiseOther m => errorPath s oid queue_name op (.other m) now)
      | _, _ => s
  | .completeRetry oid now =>
      match afind s.pending oid, afind s.store oid with
      | some pi, some op =>
          let op1 := { op with status := .queued }
          let q := (afind s.queues "default").getD ({})
          let s1 := { s with
            store := aset s.store oid op1,
            queues := aset s.queues "default"
              ({ queue := heappush q.queue (entryOf op1),
                 entry_count := q.entry_count + 1 }),
            pending := aremove s.pending oid }
          finallyBlock s1 oid pi.qname now
      | _, _ => s

/-- Run a list of events from a state. -/
def runEvents (s : MState) (evs : List MEvent) : MState :=
  evs.foldl stepM s

/-- Guard of a well-formed event: an enqueue submits a fresh operation id
(ids are never reused per the data model). -/
def wfGuard (s : MState) : MEvent → Bool
  | .enqueue op _ => (afind s.store op.id).isNone
  | _ => true

/-- Well-formed event lists: every event satisfies the guard in the state
it fires from. -/
def wfEvents (s : MState) : List MEvent → Bool
  | [] => true
  | ev :: rest => wfGuard s ev && wfEvents (stepM s ev) rest

/-- Occurrences of an operation id in one heap. -/
def heapCount (h : List QEntry) (oid : String) : Nat :=
  h.countP (fun e => e.oid == oid)

/-- Occurrences of an operation id across a list of named queues. -/
def qlCount (qs : List (String × PQState)) (oid : String) : Nat :=
  (qs.map (fun p => heapCount p.2.queue oid)).sum

/-- Occurrences of an operation id across all of the manager's queues. -/
def queuesCount (s : MState) (oid : String) : Nat :=
  qlCount s.queues oid

/-- Terminal statuses per the spec. -/
def isTerminal (st : OperationStatus) : Prop :=
  st = .completed ∨ st = .failed ∨ st = .cancelled

instance (st : OperationStatus) : Decidable (isTerminal st) := by
  unfold isTerminal; infer_instance

/-- OperationQueueManager.get_queue_status, translated directly; the
self.queues.get miss returns the all-defaults snapshot. -/
def getQueueStatus (s : MState) (queue_name : String) : OperationQueue :=
  match afind s.queues queue_name with
  | none => { queue_name := queue_name }
  | some q =>
      let active_count := (s.active.filterMap (fun i => afind s.store i)).countP
        (fun o =>
          match afind o.metadata "queue_name" with
          | some (MetaVal.strV v) => v == queue_name
          | _ => false)
      let st := (afind s.stats queue_name).getD ({})
      { queue_name := queue_name,
        total_operations := q.entry_count,
        active_operations := active_count,
        waiting_operations := q.queue.length,
        completed_operations := st.success_count,
        failed_operations := st.failure_count,
        average_wait_time := st.average_duration,
        average_processing_time := st.average_duration,
        metadata := [("error_rate", st.error_rate),
                     ("throughput", st.throughput)] }

/-- Whether an event can create or touch the lane of the given queue name
by enqueuing into it (explicit enqueue, or the retry re-enqueue which
always targets the "default" queue). -/
def mayEnqueueTo (queue_name : String) : MEvent → Bool
  | .enqueue _ qn => qn == queue_name
  | .completeRetry _ _ => queue_name == "default"
  | _ => false

/-- Consistency invariant of reachable manager states: every id in a queue
belongs to a stored operation whose status is QUEUED and occurs in the
queues at most once; ids with an outstanding handler await are RUNNING; ids
sleeping before a retry re-enqueue are RETRYING. -/
structure MInv (s : MState) : Prop where
  store_id : ∀ id op, afind s.store id = some op → op.id = id
  queued_status : ∀ id, 0 < queuesCount s id →
    ∃ op, afind s.store id = some op ∧ op.status = .queued
  queued_once : ∀ id, queuesCount s id ≤ 1
  running_status : ∀ id qn, afind s.running id = some qn →
    ∃ op, afind s.store id = some op ∧ op.status = .running
  pending_status : ∀ id pi, afind s.pending id = some pi →
    ∃ op, afind s.store id = some op ∧ op.status = .retrying

/-- Concrete operation used by the evaluated scenarios: a fresh capability
request with the given id and created_at. -/
def exOp (i : String) (c : Int) : Operation :=
  { id := i, project_id := "p1", agent_id := "a1", capability := "echo",
    status := .queued, priority := .normal, created_at := c }

/-- Concrete RetryHandler state after five consecutive failures of the key
p1:op1 at times 0..4. -/
def rhFail5 : RetryHandlerState :=
  executeWithRetryRecord (executeWithRetryRecord (executeWithRetryRecord
    (executeWithRetryRecord (executeWithRetryRecord ({}) "p1:op1" 0 false)
      "p1:op1" 1 false) "p1:op1" 2 false) "p1:op1" 3 false) "p1:op1" 4 false

/-- rhFail5 after the breaker check at time 70 (past the 60s reset timeout,
so the breaker turns half-open) followed by a successful attempt at 71. -/
def rhAfterSuccess : RetryHandlerState :=
  executeWithRetryRecord (checkCircuitBreaker rhFail5 "p1:op1" 70).1
    "p1:op1" 71 true

/-- Concrete manager trace: register the echo handler, enqueue op1, process
it to successful completion. -/
def exPre : List MEvent :=
  [MEvent.register "echo",
   MEvent.enqueue (exOp "op1" 0) "default",
   MEvent.beginProcess "default" 10,
   MEvent.finishProcess "op1" (HandlerOutcome.success []) 20]

/-- Further events fired after op1 completed: a second operation is enqueued
and dispatched. -/
def exPost : List MEvent :=
  [MEvent.enqueue (exOp "op2" 1) "default",
   MEvent.beginProcess "default" 30]

/-- The stored record of op1 after exPre: COMPLETED with its timestamps and
result. -/
def exDone : Operation :=
  { exOp "op1" 0 with
    status := OperationStatus.completed,
    started_at := some 10,
    completed_at := some 20,
    result := some [] }

/-- State with op1 queued in the default lane while no handler is
registered for its capability. -/
def c7state : MState :=
  { queues := [("default", { queue := [⟨1, 0, "op1"⟩], entry_count := 1 })],
    store := [("op1", exOp "op1" 0)] }

/-- op1 as stored while RUNNING (dispatched at time 10). -/
def c8op : Operation :=
  { exOp "op1" 0 with
    status := OperationStatus.running, started_at := some 10 }

/-- State with op1 RUNNING and its handler await outstanding on the default
queue. -/
def c8state : MState :=
  { store := [("op1", c8op)],
    active := ["op1"],
    handlers := ["echo"],
    running := [("op1", "default")] }

/-- c8op with retry_count already at 3, the maximum for the classified
error of the C4 scenario. -/
def c4op : Operation :=
  { c8op with metadata := [("retry_count", MetaVal.natV 3)] }

/-- c8state with op1 already retried three times. -/
def c4state : MState :=
  { store := [("op1", c4op)],
    active := ["op1"],
    handlers := ["echo"],
    running := [("op1", "default")] }

/-- Classified error raised by the handler in the C4 scenario. -/
def c4err : OperationError :=
  { message := "boom", code := ErrorCode.operationFailed,
    retry_strategy := RetryStrategy.exponentialBackoff, max_retries := 3 }

/-! ### Order facts about the entry comparison -/

theorem eLT_irrefl (a : QEntry) : ¬ eLT a a := by
  simp only [eLT]; omega

theorem eLT_asymm {a b : QEntry} (h : eLT a b) : ¬ eLT b a := by
  simp only [eLT] at *; omega

theorem eLT_trans {a b c : QEntry} (h1 : eLT a b) (h2 : eLT b c) : eLT a c := by
  simp only [eLT] at *; omega

theorem eLT_neg_trans {a b c : QEntry} (h1 : ¬ eLT a b) (h2 : ¬ eLT b c) :
    ¬ eLT a c := by
  simp only [eLT] at *; omega

theorem eLT_neg_lt_trans {a b c : QEntry} (h1 : ¬ eLT a b) (h2 : eLT c b) :
    eLT c a := by
  simp only [eLT] at *; omega

/-! ### List index and permutation helpers -/

theorem hGet_cons_succ (a : QEntry) (t : List QEntry) (j : Nat) :
    hGet (a :: t) (j + 1) = hGet t j := rfl

theorem hGet_cons_zero (a : QEntry) (t : List QEntry) :
    hGet (a :: t) 0 = a := rfl

theorem hGet_set_self {l : List QEntry} {n : Nat} (a : QEntry)
    (h : n < l.length) : hGet (l.set n a) n = a := by
  induction l generalizing n with
  | nil => simp at h
  | cons b t ih =>
    cases n with
    | zero => rfl
    | succ m =>
      simp only [List.set]
      rw [hGet_cons_succ]
      exact ih (by simpa using h)

theorem hGet_set_ne {l : List QEntry} {n m : Nat} (a : QEntry)
    (h : n ≠ m) : hGet (l.set n a) m = hGet l m := by
  induction l generalizing n m with
  | nil => rfl
  | cons b t ih =>
    cases n with
    | zero =>
      cases m with
      | zero => exact absurd rfl h
      | succ k => rfl
    | succ n' =>
      cases m with
      | zero => rfl
      | succ k =>
        simp only [List.set]
        rw [hGet_cons_succ, hGet_cons_succ]
        exact ih (by omega)

theorem hGet_append_left {l l2 : List QEntry} {i : Nat} (h : i < l.length) :
    hGet (l ++ l2) i = hGet l i := by
  induction l generalizing i with
  | nil => simp at h
  | cons b t ih =>
    cases i with
    | zero => rfl
    | succ k =>
      simp only [List.cons_append]
      rw [hGet_cons_succ, hGet_cons_succ]
      exact ih (by simpa using h)

theorem hGet_append_self {l : List QEntry} (x : QEntry) :
    hGet (l ++ [x]) l.length = x := by
  induction l with
  | nil => rfl
  | cons b t ih =>
    simp only [List.cons_append, List.length_cons]
    rw [hGet_cons_succ]
    exact ih

theorem dropLast_hGet {l : List QEntry} {j : Nat} (h : j < l.length - 1) :
    hGet l.dropLast j = hGet l j := by
  induction l generalizing j with
  | nil => simp at h
  | cons b t ih =>
    cases t with
    | nil => simp at h
    | cons c u =>
      cases j with
      | zero => rfl
      | succ k =>
        show hGet ((b :: c :: u).dropLast) (k + 1) = hGet (c :: u) k
        rw [List.dropLast_cons₂, hGet_cons_succ]
        exact ih (by simp at h ⊢; omega)

theorem dropLast_append_getLastD {l : List QEntry} (h : l ≠ []) :
    l.dropLast ++ [l.getLastD dummyEntry] = l := by
  induction l with
  | nil => exact absurd rfl h
  | cons b t ih =>
    cases t with
    | nil => rfl
    | cons c u =>
      rw [List.dropLast_cons₂, List.getLastD_cons]
      simpa using ih (by simp)

theorem perm_cons_eraseIdx {l : List QEntry} {j : Nat} (h : j < l.length) :
    l.Perm (hGet l j :: l.eraseIdx j) := by
  induction l generalizing j with
  | nil => simp at h
  | cons b t ih =>
    cases j with
    | zero => exact List.Perm.refl _
    | succ k =>
      rw [hGet_cons_succ]
      show (b :: t).Perm (hGet t k :: b :: t.eraseIdx k)
      exact ((ih (by simpa using h)).cons b).trans (List.Perm.swap _ _ _)

theorem eraseIdx_set_self (l : List QEntry) (n : Nat) (a : QEntry) :
    (l.set n a).eraseIdx n = l.eraseIdx n := by
  induction l generalizing n with
  | nil => rfl
  | cons b t ih =>
    cases n with
    | zero => rfl
    | succ k => simpa using ih k

theorem set_perm {l : List QEntry} {n : Nat} (a : QEntry) (h : n < l.length) :
    (l.set n a).Perm (a :: l.eraseIdx n) := by
  have h1 : n < (l.set n a).length := by simpa using h
  have h2 := perm_cons_eraseIdx h1
  rwa [hGet_set_self a h, eraseIdx_set_self] at h2

theorem set_set_perm {l : List QEntry} {i j : Nat} (a : QEntry)
    (hij : i ≠ j) (hi : i < l.length) (hj : j < l.length) :
    ((l.set i (hGet l j)).set j a).Perm (l.set i a) := by
  have hjL : j < (l.set i (hGet l j)).length := by simpa using hj
  have p1 : ((l.set i (hGet l j)).set j a).Perm
      (a :: (l.set i (hGet l j)).eraseIdx j) := set_perm a hjL
  have p2 : (l.set i (hGet l j)).Perm
      (hGet l j :: (l.set i (hGet l j)).eraseIdx j) := by
    have := perm_cons_eraseIdx hjL
    rwa [hGet_set_ne _ hij] at this
  have p3 : (l.set i (hGet l j)).Perm (hGet l j :: l.eraseIdx i) :=
    set_perm _ hi
  have p4 : ((l.set i (hGet l j)).eraseIdx j).Perm (l.eraseIdx i) :=
    (p2.symm.trans p3).cons_inv
  exact p1.trans ((p4.cons a).trans (set_perm a hi).symm)

/-! ### Length and content of the heap operations -/

theorem siftdown_length : ∀ (pos : Nat) (heap : List QEntry)
    (startpos : Nat) (x : QEntry),
    (siftdown heap startpos pos x).length = heap.length := by
  intro pos
  induction pos using Nat.strong_induction_on with
  | _ pos ih =>
    intro heap startpos x
    rw [siftdown]
    split
    · split
      · rename_i hs _
        rw [ih ((pos - 1) / 2) (by omega)]
        simp
      · simp
    · simp

theorem siftupLoop_length : ∀ (k pos : Nat) (heap : List QEntry)
    (startpos : Nat) (x : QEntry), heap.length - pos = k →
    (siftupLoop heap startpos pos x).length = heap.length := by
  intro k
  induction k using Nat.strong_induction_on with
  | _ k ih =>
    intro pos heap startpos x hk
    rw [siftupLoop]
    split
    · rename_i hlt
      have hc : pos < childSel heap pos ∧ childSel heap pos < heap.length := by
        unfold childSel; split <;> omega
      rw [ih ((heap.set pos (hGet heap (childSel heap pos))).length -
            childSel heap pos) (by simp; omega) _ _ _ _ rfl]
      simp
    · rw [siftdown_length]

theorem siftdown_perm : ∀ (pos : Nat) (heap : List QEntry)
    (startpos : Nat) (x : QEntry), pos < heap.length →
    (siftdown heap startpos pos x).Perm (heap.set pos x) := by
  intro pos
  induction pos using Nat.strong_induction_on with
  | _ pos ih =>
    intro heap startpos x hp
    rw [siftdown]
    split
    · split
      · rename_i hs _
        have h1 : (pos - 1) / 2 < (heap.set pos
            (hGet heap ((pos - 1) / 2))).length := by simp; omega
        refine (ih ((pos - 1) / 2) (by omega) _ _ _ (by simp; omega)).trans ?_
        exact set_set_perm x (by omega) hp (by omega)
      · exact List.Perm.refl _
    · exact List.Perm.refl _

theorem siftupLoop_perm : ∀ (k pos : Nat) (heap : List QEntry)
    (startpos : Nat) (x : QEntry), heap.length - pos = k →
    pos < heap.length →
    (siftupLoop heap startpos pos x).Perm (heap.set pos x) := by
  intro k
  induction k using Nat.strong_induction_on with
  | _ k ih =>
    intro pos heap startpos x hk hp
    rw [siftupLoop]
    split
    · rename_i hlt
      have hc : pos < childSel heap pos ∧ childSel heap pos < heap.length := by
        unfold childSel; split <;> omega
      refine (ih ((heap.set pos (hGet heap (childSel heap pos))).length -
          childSel heap pos) (by simp; omega) _ _ _ _ rfl (by simp; omega)).trans ?_
      exact set_set_perm x (by omega) hp hc.2
    · exact siftdown_perm pos heap startpos x hp

theorem eraseIdx_append_length (l : List QEntry) (x : QEntry) :
    (l ++ [x]).eraseIdx l.length = l := by
  induction l with
  | nil => rfl
  | cons b t ih => simpa using ih

theorem heappush_perm (l : List QEntry) (x : QEntry) :
    (heappush l x).Perm (x :: l) := by
  unfold heappush
  have hlen : l.length < (l ++ [x]).length := by simp
  refine (siftdown_perm l.length (l ++ [x]) 0 x hlen).trans ?_
  have := set_perm x hlen
  rwa [eraseIdx_append_length] at this

theorem heappush_length (l : List QEntry) (x : QEntry) :
    (heappush l x).length = l.length + 1 := by
  have := (heappush_perm l x).length_eq
  simpa using this

theorem heappop_none_iff (l : List QEntry) : heappop l = none ↔ l = [] := by
  unfold heappop
  constructor
  · intro h
    split at h
    · rename_i he; exact List.isEmpty_iff.mp he
    · split at h <;> simp at h
  · intro h; subst h; rfl

theorem heappop_perm {l : List QEntry} {r : QEntry} {l' : List QEntry}
    (h : heappop l = some (r, l')) : l.Perm (r :: l') := by
  unfold heappop at h
  by_cases he : l.isEmpty
  · rw [if_pos he] at h; simp at h
  · rw [if_neg he] at h
    have hne : l ≠ [] := by simpa [List.isEmpty_iff] using he
    by_cases hdl : l.dropLast.isEmpty
    · rw [if_pos hdl] at h
      have hrest : l.dropLast = [] := List.isEmpty_iff.mp hdl
      have h1 : l.getLastD dummyEntry = r := by
        simpa using congrArg (fun o => (o.map Prod.fst).getD dummyEntry) h
      have h2 : l.dropLast = l' := by
        simpa using congrArg (fun o => (o.map Prod.snd).getD []) h
      have hl : l = l.dropLast ++ [l.getLastD dummyEntry] :=
        (dropLast_append_getLastD hne).symm
      rw [hrest, h1] at hl
      rw [hl, ← h2, hrest]
      exact List.Perm.refl _
    · rw [if_neg hdl] at h
      have hrne : l.dropLast ≠ [] := by simpa [List.isEmpty_iff] using hdl
      obtain ⟨a, t, ha⟩ : ∃ a t, l.dropLast = a :: t := by
        cases hcc : l.dropLast with
        | nil => exact absurd hcc hrne
        | cons a t => exact ⟨a, t, rfl⟩
      have h1 : hGet l.dropLast 0 = r := by
        simpa using congrArg (fun o => (o.map Prod.fst).getD dummyEntry) h
      have h2 : siftup (l.dropLast.set 0 (l.getLastD dummyEntry)) 0 = l' := by
        simpa using congrArg (fun o => (o.map Prod.snd).getD []) h
      have hlen0 : 0 < l.dropLast.length := by rw [ha]; simp
      have key : (siftup (l.dropLast.set 0 (l.getLastD dummyEntry)) 0).Perm
          ((l.getLastD dummyEntry) :: l.dropLast.eraseIdx 0) := by
        unfold siftup
        rw [hGet_set_self (l.getLastD dummyEntry) hlen0]
        have hsl : 0 < (l.dropLast.set 0 (l.getLastD dummyEntry)).length := by
          simpa using hlen0
        have base : ((l.dropLast.set 0 (l.getLastD dummyEntry)).set 0
            (l.getLastD dummyEntry)).Perm
            ((l.getLastD dummyEntry) :: l.dropLast.eraseIdx 0) := by
          rw [List.set_set]
          exact set_perm _ hlen0
        exact (siftupLoop_perm _ 0 _ 0 _ rfl hsl).trans base
      have hr0 : hGet l.dropLast 0 = a := by rw [ha]; rfl
      have herase : l.dropLast.eraseIdx 0 = t := by rw [ha]; rfl
      rw [herase] at key
      have step1 : (t ++ [l.getLastD dummyEntry]).Perm l' :=
        h2 ▸ (List.perm_append_singleton _ _).trans key.symm
      have hl : l = l.dropLast ++ [l.getLastD dummyEntry] :=
        (dropLast_append_getLastD hne).symm
      rw [← h1, hr0]
      refine List.Perm.trans ?_ (step1.cons a)
      conv_lhs => rw [hl, ha]
      exact List.Perm.refl _

theorem heappop_fst {l : List QEntry} {r : QEntry} {l' : List QEntry}
    (h : heappop l = some (r, l')) : r = hGet l 0 := by
  unfold heappop at h
  by_cases he : l.isEmpty
  · rw [if_pos he] at h; simp at h
  · rw [if_neg he] at h
    have hne : l ≠ [] := by simpa [List.isEmpty_iff] using he
    by_cases hdl : l.dropLast.isEmpty
    · rw [if_pos hdl] at h
      have h1 : l.getLastD dummyEntry = r := by
        simpa using congrArg (fun o => (o.map Prod.fst).getD dummyEntry) h
      have hrest : l.dropLast = [] := List.isEmpty_iff.mp hdl
      have hl : l = l.dropLast ++ [l.getLastD dummyEntry] :=
        (dropLast_append_getLastD hne).symm
      rw [hrest] at hl
      rw [← h1, hl]
      rfl
    · rw [if_neg hdl] at h
      have h1 : hGet l.dropLast 0 = r := by
        simpa using congrArg (fun o => (o.map Prod.fst).getD dummyEntry) h
      have hrne : l.dropLast ≠ [] := by simpa [List.isEmpty_iff] using hdl
      have hlen0 : 0 < l.dropLast.length := List.length_pos.mpr hrne
      have hL : l.dropLast.length = l.length - 1 := by simp
      rw [← h1, dropLast_hGet (by omega)]

/-! ### The binary-heap invariant and its preservation -/

theorem isHeap_nil : IsHeap [] := by
  intro j _ h
  simp at h

theorem isHeap_root_le {l : List QEntry} (hh : IsHeap l) :
    ∀ j, j < l.length → ¬ eLT (hGet l j) (hGet l 0) := by
  intro j
  induction j using Nat.strong_induction_on with
  | _ j ih =>
    intro hjlen
    by_cases hj0 : j = 0
    · subst hj0; exact eLT_irrefl _
    · have hp : (j - 1) / 2 < j := by omega
      exact eLT_neg_trans (hh j (by omega) hjlen) (ih _ hp (by omega))

theorem siftdown_isHeap : ∀ (pos : Nat) (heap : List QEntry) (x : QEntry),
    pos < heap.length →
    (∀ j, 0 < j → j < heap.length → j ≠ pos →
      ¬ eLT (hGet heap j) (hGet heap ((j - 1) / 2))) →
    (∀ j, 0 < j → j < heap.length → (j - 1) / 2 = pos →
      ¬ eLT (hGet heap j) x) →
    (∀ j, 0 < j → j < heap.length → (j - 1) / 2 = pos → 0 < pos →
      ¬ eLT (hGet heap j) (hGet heap ((pos - 1) / 2))) →
    IsHeap (siftdown heap 0 pos x) := by
  intro pos
  induction pos using Nat.strong_induction_on with
  | _ pos ih =>
    intro heap x hlen hA hB hC
    rw [siftdown]
    by_cases h0 : 0 < pos
    · rw [dif_pos h0]
      by_cases hcmp : eLT x (hGet heap ((pos - 1) / 2))
      · rw [if_pos hcmp]
        apply ih ((pos - 1) / 2) (by omega)
        · simp only [List.length_set]; omega
        · -- heap property everywhere except the new hole (pos - 1) / 2
          intro j hj0 hjlen hjne
          rw [List.length_set] at hjlen
          by_cases hjp : j = pos
          · subst hjp
            rw [hGet_set_self _ hlen, hGet_set_ne _ (by omega)]
            exact eLT_irrefl _
          · by_cases hpar : (j - 1) / 2 = pos
            · rw [hGet_set_ne _ (by omega), hpar, hGet_set_self _ hlen]
              exact hC j hj0 hjlen hpar h0
            · rw [hGet_set_ne _ (by omega), hGet_set_ne _ (by omega)]
              exact hA j hj0 hjlen hjp
        · -- children of the new hole are not below the new item
          intro j hj0 hjlen hpar
          rw [List.length_set] at hjlen
          by_cases hjp : j = pos
          · subst hjp
            rw [hGet_set_self _ hlen]
            exact eLT_asymm hcmp
          · rw [hGet_set_ne _ (by omega)]
            have hja := hA j hj0 hjlen hjp
            rw [hpar] at hja
            intro hcon
            exact hja (eLT_trans hcon hcmp)
        · -- children of the new hole are not below the hole's parent value
          intro j hj0 hjlen hpar hpos0
          rw [List.length_set] at hjlen
          have hppA := hA ((pos - 1) / 2) hpos0 (by omega) (by omega)
          by_cases hjp : j = pos
          · subst hjp
            rw [hGet_set_self _ hlen, hGet_set_ne _ (by omega)]
            exact hppA
          · rw [hGet_set_ne _ (by omega), hGet_set_ne _ (by omega)]
            have hja := hA j hj0 hjlen hjp
            rw [hpar] at hja
            exact eLT_neg_trans hja hppA
      · rw [if_neg hcmp]
        intro j hj0 hjlen
        rw [List.length_set] at hjlen
        by_cases hjp : j = pos
        · subst hjp
          rw [hGet_set_self _ hlen, hGet_set_ne _ (by omega)]
          exact hcmp
        · by_cases hpar : (j - 1) / 2 = pos
          · rw [hGet_set_ne _ (by omega), hpar, hGet_set_self _ hlen]
            exact hB j hj0 hjlen hpar
          · rw [hGet_set_ne _ (by omega), hGet_set_ne _ (by omega)]
            exact hA j hj0 hjlen hjp
    · rw [dif_neg h0]
      have hp0 : pos = 0 := by omega
      subst hp0
      intro j hj0 hjlen
      rw [List.length_set] at hjlen
      rw [hGet_set_ne _ (by omega)]
      by_cases hpar : (j - 1) / 2 = 0
      · rw [hpar, hGet_set_self _ hlen]
        exact hB j hj0 hjlen hpar
      · rw [hGet_set_ne _ (by omega)]
        exact hA j hj0 hjlen (by omega)

theorem childSel_bounds (heap : List QEntry) (pos : Nat)
    (h : 2 * pos + 1 < heap.length) :
    2 * pos + 1 ≤ childSel heap pos ∧ childSel heap pos ≤ 2 * pos + 2 ∧
      childSel heap pos < heap.length ∧ (childSel heap pos - 1) / 2 = pos := by
  unfold childSel
  split <;> omega

theorem childSel_min (heap : List QEntry) (pos : Nat)
    (h : 2 * pos + 1 < heap.length) :
    ∀ j, 0 < j → j < heap.length → (j - 1) / 2 = pos →
    j ≠ childSel heap pos →
    ¬ eLT (hGet heap j) (hGet heap (childSel heap pos)) := by
  intro j hj0 hjlen hpar hne
  by_cases hcond : 2 * pos + 2 < heap.length ∧
      ¬ eLT (hGet heap (2 * pos + 1)) (hGet heap (2 * pos + 2))
  · simp only [childSel, if_pos hcond] at hne ⊢
    have hj : j = 2 * pos + 1 := by omega
    subst hj
    exact hcond.2
  · simp only [childSel, if_neg hcond] at hne ⊢
    have hj : j = 2 * pos + 2 := by omega
    subst hj
    have hlt : eLT (hGet heap (2 * pos + 1)) (hGet heap (2 * pos + 2)) := by
      by_contra hno
      exact hcond ⟨hjlen, hno⟩
    exact eLT_asymm hlt

theorem siftupLoop_isHeap : ∀ (k pos : Nat) (heap : List QEntry) (x : QEntry),
    heap.length - pos = k → pos < heap.length →
    (∀ j, 0 < j → j < heap.length → j ≠ pos → (j - 1) / 2 ≠ pos →
      ¬ eLT (hGet heap j) (hGet heap ((j - 1) / 2))) →
    (∀ j, 0 < j → j < heap.length → (j - 1) / 2 = pos → 0 < pos →
      ¬ eLT (hGet heap j) (hGet heap ((pos - 1) / 2))) →
    IsHeap (siftupLoop heap 0 pos x) := by
  intro k
  induction k using Nat.strong_induction_on with
  | _ k ih =>
    intro pos heap x hk hlen hA hE
    rw [siftupLoop]
    split
    · rename_i hc1
      obtain ⟨hcl, hcr, hclen, hcpar⟩ := childSel_bounds heap pos hc1
      apply ih ((heap.set pos (hGet heap (childSel heap pos))).length -
          childSel heap pos) (by simp; omega) _ _ _ rfl (by simp; omega)
      · -- heap property away from the new hole childSel heap pos
        intro j hj0 hjlen hne hpar
        rw [List.length_set] at hjlen
        by_cases hjp : j = pos
        · subst hjp
          rw [hGet_set_self _ hlen, hGet_set_ne _ (by omega)]
          by_cases hj00 : 0 < j
          · exact hE (childSel heap j) (by omega) hclen hcpar hj00
          · omega
        · by_cases hparp : (j - 1) / 2 = pos
          · rw [hGet_set_ne _ (by omega), hparp, hGet_set_self _ hlen]
            exact childSel_min heap pos hc1 j hj0 hjlen hparp hne
          · rw [hGet_set_ne _ (by omega), hGet_set_ne _ (by omega)]
            exact hA j hj0 hjlen hjp hparp
      · -- children of the new hole are not below the hole's parent value
        intro j hj0 hjlen hpar _
        rw [List.length_set] at hjlen
        rw [hcpar, hGet_set_self _ hlen, hGet_set_ne _ (by omega)]
        have hja := hA j hj0 hjlen (by omega) (by omega)
        rw [hpar] at hja
        exact hja
    · rename_i hc1
      apply siftdown_isHeap pos heap x hlen
      · intro j hj0 hjlen hne
        by_cases hpar : (j - 1) / 2 = pos
        · omega
        · exact hA j hj0 hjlen hne hpar
      · intro j hj0 hjlen hpar
        omega
      · intro j hj0 hjlen hpar _
        omega

theorem heappush_isHeap {l : List QEntry} (x : QEntry) (hh : IsHeap l) :
    IsHeap (heappush l x) := by
  unfold heappush
  apply siftdown_isHeap l.length (l ++ [x]) x (by simp)
  · intro j hj0 hjlen hjne
    simp only [List.length_append, List.length_cons, List.length_nil] at hjlen
    have hjl : j < l.length := by omega
    rw [hGet_append_left hjl, hGet_append_left (by omega)]
    exact hh j hj0 hjl
  · intro j hj0 hjlen hpar
    simp only [List.length_append, List.length_cons, List.length_nil] at hjlen
    omega
  · intro j hj0 hjlen hpar _
    simp only [List.length_append, List.length_cons, List.length_nil] at hjlen
    omega

theorem heappop_isHeap {l : List QEntry} {r : QEntry} {l' : List QEntry}
    (hh : IsHeap l) (h : heappop l = some (r, l')) : IsHeap l' := by
  unfold heappop at h
  by_cases he : l.isEmpty
  · rw [if_pos he] at h; simp at h
  · rw [if_neg he] at h
    by_cases hdl : l.dropLast.isEmpty
    · rw [if_pos hdl] at h
      have h2 : l.dropLast = l' := by
        simpa using congrArg (fun o => (o.map Prod.snd).getD []) h
      rw [← h2, List.isEmpty_iff.mp hdl]
      exact isHeap_nil
    · rw [if_neg hdl] at h
      have h2 : siftup (l.dropLast.set 0 (l.getLastD dummyEntry)) 0 = l' := by
        simpa using congrArg (fun o => (o.map Prod.snd).getD []) h
      rw [← h2]
      unfold siftup
      have hrne : l.dropLast ≠ [] := by simpa [List.isEmpty_iff] using hdl
      have hlen0 : 0 < l.dropLast.length := List.length_pos.mpr hrne
      have hdll : l.dropLast.length = l.length - 1 := by simp
      apply siftupLoop_isHeap _ 0 _ _ rfl (by simpa using hlen0)
      · intro j hj0 hjlen hne hpar
        rw [List.length_set] at hjlen
        rw [hGet_set_ne _ (by omega), hGet_set_ne _ (by omega),
          dropLast_hGet (by omega), dropLast_hGet (by omega)]
        exact hh j hj0 (by omega)
      · intro j _ _ _ hpos0
        omega

/-! ### Membership facts for heaps -/

theorem hGet_mem {l : List QEntry} {j : Nat} (h : j < l.length) :
    hGet l j ∈ l := by
  induction l generalizing j with
  | nil => simp at h
  | cons b t ih =>
    cases j with
    | zero => exact List.mem_cons_self _ _
    | succ k => exact List.mem_cons_of_mem _ (ih (by simpa using h))

theorem mem_hGet {l : List QEntry} {y : QEntry} (h : y ∈ l) :
    ∃ j, j < l.length ∧ hGet l j = y := by
  induction l with
  | nil => simp at h
  | cons b t ih =>
    rcases List.mem_cons.mp h with h1 | h2
    · exact ⟨0, by simp, by rw [h1]; rfl⟩
    · obtain ⟨j, hj, hh⟩ := ih h2
      exact ⟨j + 1, by simpa using hj, hh⟩

theorem isHeap_root_le_mem {l : List QEntry} (hh : IsHeap l) {y : QEntry}
    (hy : y ∈ l) : ¬ eLT y (hGet l 0) := by
  obtain ⟨j, hj, hget⟩ := mem_hGet hy
  rw [← hget]
  exact isHeap_root_le hh j hj

/-! ### FIFO order within one priority lane -/

theorem runQ_fifo : ∀ (acts : List QAct) (q : PQState) (rem : List QEntry)
    (p : Nat), IsHeap q.queue → q.queue.Perm rem →
    (∀ e ∈ rem ++ pushedEntries acts, e.pval = p) →
    (rem ++ pushedEntries acts).Pairwise
      (fun a b => a.created < b.created) →
    (runQ q acts).2 =
      (rem ++ pushedEntries acts).take (runQ q acts).2.length := by
  intro acts
  induction acts with
  | nil =>
    intro q rem p _ _ _ _
    simp [runQ]
  | cons act rest ih =>
    intro q rem p hheap hperm hp hpair
    cases act with
    | push op =>
      have hpe : pushedEntries (QAct.push op :: rest) =
          entryOf op :: pushedEntries rest := by
        simp [pushedEntries]
      have hassoc : rem ++ pushedEntries (QAct.push op :: rest) =
          (rem ++ [entryOf op]) ++ pushedEntries rest := by
        rw [hpe, List.append_assoc]
        rfl
      have hrun : runQ q (QAct.push op :: rest) = runQ (pqPush q op) rest := by
        simp [runQ]
      rw [hassoc] at hp hpair
      rw [hrun, hassoc]
      apply ih (pqPush q op) (rem ++ [entryOf op]) p
      · exact heappush_isHeap _ hheap
      · exact (heappush_perm _ _).trans ((hperm.cons _).trans
          (List.perm_append_singleton _ _).symm)
      · exact hp
      · exact hpair
    | pop =>
      have hpe : pushedEntries (QAct.pop :: rest) = pushedEntries rest := by
        simp [pushedEntries]
      rw [hpe] at hp hpair ⊢
      cases hhp : heappop q.queue with
      | none =>
        have hq : q.queue = [] := (heappop_none_iff _).mp hhp
        have hrun : runQ q (QAct.pop :: rest) = runQ q rest := by
          simp [runQ, pqPop, hhp]
        rw [hrun]
        exact ih q rem p hheap hperm hp hpair
      | some pr =>
        obtain ⟨e, h1⟩ := pr
        have hqne : q.queue ≠ [] := by
          intro hq
          rw [hq] at hhp
          exact absurd ((heappop_none_iff _).mpr rfl ▸ hhp) (by simp [heappop])
        obtain ⟨rh, rt, hrem⟩ : ∃ rh rt, rem = rh :: rt := by
          cases hrr : rem with
          | nil =>
            rw [hrr] at hperm
            exact absurd (List.Perm.eq_nil hperm) hqne
          | cons rh rt => exact ⟨rh, rt, rfl⟩
        subst hrem
        have hefst : e = hGet q.queue 0 := heappop_fst hhp
        have hein : e ∈ q.queue := by
          rw [hefst]
          exact hGet_mem (by cases hq : q.queue with
            | nil => exact absurd hq hqne
            | cons a t => simp)
        have hrhin : rh ∈ q.queue := hperm.mem_iff.mpr (List.mem_cons_self _ _)
        have herh : e = rh := by
          rcases List.mem_cons.mp (hperm.mem_iff.mp hein) with h | h
          · exact h
          · exfalso
            have hlt : rh.created < e.created := by
              have := (List.pairwise_cons.mp hpair).1
              exact this e (List.mem_append_left _ h)
            have hpe1 : e.pval = p := hp e (List.mem_append_left _
              (List.mem_cons_of_mem _ h))
            have hpr : rh.pval = p := hp rh (List.mem_append_left _
              (List.mem_cons_self _ _))
            have helt : eLT rh e := by
              simp only [eLT]
              omega
            rw [hefst] at helt
            exact isHeap_root_le_mem hheap hrhin helt
        have hperm1 : h1.Perm rt := by
          have hq1 : (e :: h1).Perm (e :: rt) := by
            refine (heappop_perm hhp).symm.trans ?_
            rw [herh]
            exact hperm
          exact hq1.cons_inv
        have hrun : runQ q (QAct.pop :: rest) =
            ((runQ { q with queue := h1 } rest).1,
             e :: (runQ { q with queue := h1 } rest).2) := by
          simp [runQ, pqPop, hhp]
        rw [hrun]
        have ihx := ih { q with queue := h1 } rt p
          (heappop_isHeap hheap hhp) hperm1
          (fun x hx => hp x (List.mem_cons_of_mem _ hx))
          (List.pairwise_cons.mp hpair).2
        simp only [List.length_cons, List.cons_append, List.take_succ_cons]
        rw [herh]
        exact congrArg (fun L => rh :: L) ihx

/-- C1 (amended): for every sequence of operations pushed into one priority
lane (all pushes carry the same priority value) whose created_at timestamps
are strictly increasing in push order, the entries returned by pop form a
prefix of the pushed entries in push order (FIFO), for all interleavings of
pushes and pops.  The created_at hypothesis is necessary: the heap orders a
lane by (priority, created_at), not by arrival (see c1_counterexample). -/
theorem c1_fifo_within_priority (acts : List QAct) (p : Nat)
    (hp : ∀ e ∈ pushedEntries acts, e.pval = p)
    (hinc : (pushedEntries acts).Pairwise (fun a b => a.created < b.created)) :
    (runQ {} acts).2 = (pushedEntries acts).take (runQ {} acts).2.length := by
  have h := runQ_fifo acts {} [] p isHeap_nil (List.Perm.refl _)
    (by simpa using hp) (by simpa using hinc)
  simpa using h

/-- C1 witness: a concrete single-priority scenario with increasing
created_at, run through the theorem. -/
theorem c1_fifo_witness :
    (runQ {} [QAct.push (exOp "w1" 1), QAct.pop, QAct.push (exOp "w2" 2),
      QAct.pop]).2 =
    (pushedEntries [QAct.push (exOp "w1" 1), QAct.pop,
      QAct.push (exOp "w2" 2), QAct.pop]).take
      (runQ {} [QAct.push (exOp "w1" 1), QAct.pop, QAct.push (exOp "w2" 2),
        QAct.pop]).2.length :=
  c1_fifo_within_priority _ 1 (by decide) (by decide)

/-- C1 counterexample: two same-priority operations pushed in the order
op1 (created_at 2) then op2 (created_at 1) are popped as op2, op1 — pop
order differs from push order, refuting unconditional FIFO-by-arrival. -/
theorem c1_counterexample :
    ¬ ((runQ {} [QAct.push (exOp "op1" 2), QAct.push (exOp "op2" 1),
        QAct.pop, QAct.pop]).2 =
      (pushedEntries [QAct.push (exOp "op1" 2), QAct.push (exOp "op2" 1),
        QAct.pop, QAct.pop]).take
        (runQ {} [QAct.push (exOp "op1" 2), QAct.push (exOp "op2" 1),
          QAct.pop, QAct.pop]).2.length) := by
  have h1 : (runQ {} [QAct.push (exOp "op1" 2), QAct.push (exOp "op2" 1),
      QAct.pop, QAct.pop]).2 = [⟨1, 1, "op2"⟩, ⟨1, 2, "op1"⟩] := by
    simp [runQ, pqPush, pqPop, heappush, heappop, siftup, siftupLoop,
      siftdown, childSel, entryOf, exOp, priorityValue, hGet, eLT, dummyEntry]
  rw [h1]
  decide

/-! ### Retry delay computations -/

theorem calculate_delay_exponential (n : Nat) (config : RetryConfig)
    (j : Rat) (hn : 1 ≤ n)
    (hstrat : config.strategy = .exponentialBackoff) :
    calculate_delay n config j =
      min (config.base_delay * 2 ^ (n - 1)) config.max_delay +
        (if config.jitter then
          j * min (config.base_delay * 2 ^ (n - 1)) config.max_delay
         else 0) := by
  have hcast : ((n : Int) - 1) = ((n - 1 : Nat) : Int) := by omega
  simp only [calculate_delay, hstrat]
  rw [hcast, zpow_natCast]
  norm_num
  split <;> simp


/-- C5 (amended): for attempts n >= 1 with EXPONENTIAL_BACKOFF,
retry_strategies.calculate_delay returns base_delay * 2^(n-1) capped at
max_delay with a jitter of at most 10 percent of the capped value added,
hence never exceeds max_delay * 1.1; the queue manager's own
_calculate_retry_delay instead returns base_delay * 2^(n-1) with no cap
and no jitter (see c5_counterexample). -/
theorem c5_exponential_delay (n : Nat) (config : RetryConfig) (j : Rat)
    (hn : 1 ≤ n) (hstrat : config.strategy = .exponentialBackoff)
    (hb : 0 ≤ config.base_delay) (hm : 0 ≤ config.max_delay)
    (hj1 : -(1/10) ≤ j) (hj2 : j ≤ 1/10) :
    calculate_delay n config j =
      min (config.base_delay * 2 ^ (n - 1)) config.max_delay +
        (if config.jitter then
          j * min (config.base_delay * 2 ^ (n - 1)) config.max_delay
         else 0) ∧
    calculate_delay n config j ≤ config.max_delay * (11/10) ∧
    (∀ (m : Nat) (b : Rat), 1 ≤ m →
      calculateRetryDelay .exponentialBackoff m b = b * 2 ^ (m - 1)) := by
  have heq := calculate_delay_exponential n config j hn hstrat
  refine ⟨heq, ?_, ?_⟩
  · have hD0 : (0:Rat) ≤ min (config.base_delay * 2 ^ (n - 1))
        config.max_delay := le_min (mul_nonneg hb (by positivity)) hm
    have hDm : min (config.base_delay * 2 ^ (n - 1)) config.max_delay ≤
        config.max_delay := min_le_right _ _
    rw [heq]
    by_cases hjit : config.jitter
    · rw [if_pos hjit]
      nlinarith
    · rw [if_neg hjit]
      nlinarith
  · intro m b hm1
    have hval : calculateRetryDelay .exponentialBackoff m b =
        b * 2 ^ ((m : Int) - 1) := by
      simp [calculateRetryDelay]
    have hcast : ((m : Int) - 1) = ((m - 1 : Nat) : Int) := by omega
    rw [hval, hcast, zpow_natCast]

/-- C5 witness: defaults (base 1, max 60), attempt 2, jitter draw 1/20. -/
theorem c5_exponential_delay_witness :
    calculate_delay 2 {} (1/20) ≤ ({} : RetryConfig).max_delay * (11/10) :=
  (c5_exponential_delay 2 {} (1/20) (by norm_num) rfl (by norm_num)
    (by norm_num) (by norm_num) (by norm_num)).2.1

/-- C5 counterexample: the queue manager's _calculate_retry_delay at
attempt 8 (base 1.0) returns 128, which exceeds the claimed cap of
max_delay = 60 even with the 10 percent jitter margin, and carries no
jitter at all. -/
theorem c5_counterexample :
    calculateRetryDelay .exponentialBackoff 8 1 = 128 ∧
    ¬ (calculateRetryDelay .exponentialBackoff 8 1 ≤ 60 + (1/10) * 60) := by
  have h : calculateRetryDelay .exponentialBackoff 8 1 = 128 := by
    have hval : calculateRetryDelay .exponentialBackoff 8 1 =
        1 * 2 ^ ((8 : Int) - 1) := by
      simp [calculateRetryDelay]
    rw [hval]
    norm_num
  refine ⟨h, by rw [h]; norm_num⟩

/-- C6: for EXPONENTIAL_BACKOFF the computed delay is monotone in the
attempt number while the cap has not been reached
(base_delay * 2^n <= max_delay), including when jitter is applied. -/
theorem c6_delay_monotone (n : Nat) (config : RetryConfig) (j1 j2 : Rat)
    (hn : 1 ≤ n) (hstrat : config.strategy = .exponentialBackoff)
    (hb : 0 ≤ config.base_delay)
    (hj1a : -(1/10) ≤ j1) (hj1b : j1 ≤ 1/10)
    (hj2a : -(1/10) ≤ j2) (hj2b : j2 ≤ 1/10)
    (hcap : config.base_delay * 2 ^ n ≤ config.max_delay) :
    calculate_delay n config j1 ≤ calculate_delay (n + 1) config j2 := by
  have h1 := calculate_delay_exponential n config j1 hn hstrat
  have h2 := calculate_delay_exponential (n + 1) config j2 (by omega) hstrat
  have hA0 : (0:Rat) ≤ config.base_delay * 2 ^ (n - 1) :=
    mul_nonneg hb (by positivity)
  have hpow : config.base_delay * 2 ^ (n - 1) ≤ config.base_delay * 2 ^ n :=
    mul_le_mul_of_nonneg_left (pow_le_pow_right₀ (by norm_num) (by omega)) hb
  have hmin1 : min (config.base_delay * 2 ^ (n - 1)) config.max_delay =
      config.base_delay * 2 ^ (n - 1) := min_eq_left (le_trans hpow hcap)
  have hsucc : (n + 1) - 1 = n := by omega
  have hmin2 : min (config.base_delay * 2 ^ ((n + 1) - 1)) config.max_delay =
      config.base_delay * 2 ^ n := by
    rw [hsucc]
    exact min_eq_left hcap
  rw [h1, h2, hmin1, hmin2]
  have h2n : config.base_delay * 2 ^ n =
      2 * (config.base_delay * 2 ^ (n - 1)) := by
    have hp : (2:Rat) ^ n = 2 * 2 ^ (n - 1) := by
      conv_lhs => rw [show n = (n - 1) + 1 by omega]
      ring
    rw [hp]
    ring
  rw [h2n]
  by_cases hjit : config.jitter
  · rw [if_pos hjit, if_pos hjit]
    nlinarith [mul_nonneg hA0 (show (0:Rat) ≤ 1 - j1 + 2 * j2 by linarith)]
  · rw [if_neg hjit, if_neg hjit]
    linarith

/-- C6 witness: defaults, attempts 1 and 2, no jitter draws. -/
theorem c6_delay_monotone_witness :
    calculate_delay 1 {} 0 ≤ calculate_delay 2 {} 0 :=
  c6_delay_monotone 1 {} 0 0 (by norm_num) rfl (by norm_num) (by norm_num)
    (by norm_num) (by norm_num) (by norm_num) (by norm_num)

/-! ### Association-list lemmas -/

theorem afind_aset_self {α : Type} (l : List (String × α)) (k : String)
    (v : α) : afind (aset l k v) k = some v := by
  induction l with
  | nil => simp [aset, afind]
  | cons p rest ih =>
    obtain ⟨k1, v1⟩ := p
    by_cases hk : k1 = k
    · simp [aset, afind, hk]
    · simp [aset, afind, hk, ih]

theorem afind_aset_ne {α : Type} (l : List (String × α)) (k k' : String)
    (v : α) (h : k ≠ k') : afind (aset l k v) k' = afind l k' := by
  induction l with
  | nil => simp [aset, afind, h]
  | cons p rest ih =>
    obtain ⟨k1, v1⟩ := p
    by_cases hk : k1 = k
    · subst hk
      simp [aset, afind, h]
    · simp [aset, afind, hk, ih]

theorem afind_aremove_self {α : Type} (l : List (String × α)) (k : String) :
    afind (aremove l k) k = none := by
  induction l with
  | nil => rfl
  | cons p rest ih =>
    obtain ⟨k1, v1⟩ := p
    by_cases hk : k1 = k
    · simp [aremove, hk, ih]
    · simp [aremove, afind, hk, ih]

theorem afind_aremove_ne {α : Type} (l : List (String × α)) (k k' : String)
    (h : k ≠ k') : afind (aremove l k) k' = afind l k' := by
  induction l with
  | nil => rfl
  | cons p rest ih =>
    obtain ⟨k1, v1⟩ := p
    by_cases hk : k1 = k
    · subst hk
      simp [aremove, afind, h, ih]
    · simp [aremove, afind, hk, ih]

/-! ### RetryHandler circuit-breaker bookkeeping -/

theorem exec_fail_first (s : RetryHandlerState) (key : String) (t : Int)
    (hc : afind s.retry_counts key = none) :
    afind (executeWithRetryRecord s key t false).retry_counts key =
      some { total := 1, consecutive_failures := 1,
             last_status := some "failure", last_attempt := some t } ∧
    (executeWithRetryRecord s key t false).circuit_breakers =
      s.circuit_breakers := by
  simp [executeWithRetryRecord, hc, afind_aset_self,
    shouldApplyCircuitBreaker]

theorem exec_fail_lookup (s : RetryHandlerState) (key : String) (t : Int)
    (c : RetryCounts) (hc : afind s.retry_counts key = some c)
    (hlt : ¬ 5 ≤ c.consecutive_failures + 1) (htot : ¬ 10 ≤ c.total + 1) :
    afind (executeWithRetryRecord s key t false).retry_counts key =
      some { c with total := c.total + 1,
                    consecutive_failures := c.consecutive_failures + 1,
                    last_status := some "failure",
                    last_attempt := some t } ∧
    (executeWithRetryRecord s key t false).circuit_breakers =
      s.circuit_breakers := by
  simp [executeWithRetryRecord, hc, afind_aset_self,
    shouldApplyCircuitBreaker, hlt, htot]

theorem exec_fail_trip (s : RetryHandlerState) (key : String) (t : Int)
    (c : RetryCounts) (hc : afind s.retry_counts key = some c)
    (hge : 5 ≤ c.consecutive_failures + 1)
    (hb : afind s.circuit_breakers key = none) :
    afind (executeWithRetryRecord s key t false).retry_counts key =
      some { c with total := c.total + 1,
                    consecutive_failures := c.consecutive_failures + 1,
                    last_status := some "failure",
                    last_attempt := some t } ∧
    afind (executeWithRetryRecord s key t false).circuit_breakers key =
      some { created_at := t, failure_count := c.total + 1,
             reset_timeout := 60, status := .opened } := by
  simp [executeWithRetryRecord, hc, afind_aset_self,
    shouldApplyCircuitBreaker, hge, createCircuitBreaker, hb]

theorem exec_success_lookup (s : RetryHandlerState) (key : String) (t : Int)
    (c : RetryCounts) (hc : afind s.retry_counts key = some c) :
    afind (executeWithRetryRecord s key t true).retry_counts key =
      some { c with consecutive_failures := 0,
                    last_status := some "success",
                    last_attempt := some t } ∧
    (executeWithRetryRecord s key t true).circuit_breakers =
      s.circuit_breakers := by
  simp [executeWithRetryRecord, hc, afind_aset_self]

/-- C3 (amended): per operation key, five consecutive recorded failures
create an open circuit-breaker record at the time of the fifth failure;
while less than reset_timeout (60s) has passed since the breaker was
created (the last failure of the tripping run), check_circuit_breaker
rejects the attempt with a RESOURCE_BUSY-classified error, leaving the
state unchanged and invoking nothing; once at least 60s have passed, the
next check turns the breaker half-open and allows the attempt; a
subsequent success resets the key's consecutive-failure count to 0 but the
breaker record stays half-open — it is NOT returned to closed (see
c3_counterexample; the close-on-success transition exists only in the
standalone CircuitBreaker class, which is per wrapped function, not per
operation key). -/
theorem c3_circuit_breaker_cycle (s0 : RetryHandlerState) (key : String)
    (t1 t2 t3 t4 t5 t6 t7 t8 : Int)
    (hc0 : afind s0.retry_counts key = none)
    (hb0 : afind s0.circuit_breakers key = none)
    (ht6 : t6 - t5 < 60) (ht7 : 60 ≤ t7 - t5) :
    ∀ s5, s5 = executeWithRetryRecord (executeWithRetryRecord
        (executeWithRetryRecord (executeWithRetryRecord
          (executeWithRetryRecord s0 key t1 false) key t2 false)
          key t3 false) key t4 false) key t5 false →
    afind s5.circuit_breakers key =
      some { created_at := t5, failure_count := 5, reset_timeout := 60,
             status := .opened } ∧
    checkCircuitBreaker s5 key t6 =
      (s5, some { message := "Operation blocked by circuit breaker",
                  code := .resourceBusy, retry_strategy := .linearBackoff,
                  max_retries := 3 }) ∧
    (checkCircuitBreaker s5 key t7).2 = none ∧
    afind (checkCircuitBreaker s5 key t7).1.circuit_breakers key =
      some { created_at := t5, failure_count := 5, reset_timeout := 60,
             status := .halfOpen } ∧
    (afind (executeWithRetryRecord (checkCircuitBreaker s5 key t7).1 key t8
        true).retry_counts key).map RetryCounts.consecutive_failures =
      some 0 ∧
    afind (executeWithRetryRecord (checkCircuitBreaker s5 key t7).1 key t8
        true).circuit_breakers key =
      some { created_at := t5, failure_count := 5, reset_timeout := 60,
             status := .halfOpen } := by
  intro s5 hs5
  obtain ⟨hrc1, hcb1⟩ := exec_fail_first s0 key t1 hc0
  obtain ⟨hrc2, hcb2⟩ := exec_fail_lookup _ key t2 _ hrc1
    (by norm_num) (by norm_num)
  have hrc2L : afind (executeWithRetryRecord (executeWithRetryRecord s0 key
      t1 false) key t2 false).retry_counts key =
      some { total := 2, consecutive_failures := 2,
             last_status := some "failure", last_attempt := some t2 } := hrc2
  obtain ⟨hrc3, hcb3⟩ := exec_fail_lookup _ key t3 _ hrc2L
    (by norm_num) (by norm_num)
  have hrc3L : afind (executeWithRetryRecord (executeWithRetryRecord
      (executeWithRetryRecord s0 key t1 false) key t2 false) key t3
      false).retry_counts key =
      some { total := 3, consecutive_failures := 3,
             last_status := some "failure", last_attempt := some t3 } := hrc3
  obtain ⟨hrc4, hcb4⟩ := exec_fail_lookup _ key t4 _ hrc3L
    (by norm_num) (by norm_num)
  have hrc4L : afind (executeWithRetryRecord (executeWithRetryRecord
      (executeWithRetryRecord (executeWithRetryRecord s0 key t1 false) key
      t2 false) key t3 false) key t4 false).retry_counts key =
      some { total := 4, consecutive_failures := 4,
             last_status := some "failure", last_attempt := some t4 } := hrc4
  obtain ⟨hrc5, hcb5⟩ := exec_fail_trip _ key t5 _ hrc4L
    (by norm_num) (by rw [hcb4, hcb3, hcb2, hcb1]; exact hb0)
  rw [← hs5] at hrc5 hcb5
  have hrc5L : afind s5.retry_counts key =
      some { total := 5, consecutive_failures := 5,
             last_status := some "failure", last_attempt := some t5 } := hrc5
  have hcb5L : afind s5.circuit_breakers key =
      some { created_at := t5, failure_count := 5, reset_timeout := 60,
             status := CBStatus.opened } := hcb5
  have hcast6 : (t6 : Rat) - (t5 : Rat) < 60 := by exact_mod_cast ht6
  have hcast7 : (60 : Rat) ≤ (t7 : Rat) - (t5 : Rat) := by exact_mod_cast ht7
  have hck6 : checkCircuitBreaker s5 key t6 =
      (s5, some { message := "Operation blocked by circuit breaker",
                  code := .resourceBusy, retry_strategy := .linearBackoff,
                  max_retries := 3 }) := by
    simp [checkCircuitBreaker, hcb5L, hcast6]
  have hck7 : checkCircuitBreaker s5 key t7 =
      ({ s5 with circuit_breakers := aset s5.circuit_breakers key
                   { created_at := t5, failure_count := 5,
                     reset_timeout := 60,
                     status := CBStatus.halfOpen } }, none) := by
    simp [checkCircuitBreaker, hcb5L, hcast7]
  have hrc7 : afind (checkCircuitBreaker s5 key t7).1.retry_counts key =
      some { total := 5, consecutive_failures := 5,
             last_status := some "failure", last_attempt := some t5 } := by
    rw [hck7]
    exact hrc5L
  obtain ⟨hsu1, hsu2⟩ := exec_success_lookup _ key t8 _ hrc7
  refine ⟨hcb5L, hck6, by rw [hck7], ?_, ?_, ?_⟩
  · rw [hck7]
    simp [afind_aset_self]
  · rw [hsu1]
    simp
  · rw [hsu2, hck7]
    simp [afind_aset_self]

/-- C3 witness: fresh state, key p1:op1, failures at times 0..4, checks at
30 (rejected) and 70 (half-open, allowed), success at 71. -/
theorem c3_circuit_breaker_cycle_witness :
    afind rhFail5.circuit_breakers "p1:op1" =
      some { created_at := 4, failure_count := 5, reset_timeout := 60,
             status := .opened } ∧
    checkCircuitBreaker rhFail5 "p1:op1" 30 =
      (rhFail5, some { message := "Operation blocked by circuit breaker",
                       code := .resourceBusy,
                       retry_strategy := .linearBackoff,
                       max_retries := 3 }) ∧
    (checkCircuitBreaker rhFail5 "p1:op1" 70).2 = none ∧
    afind (checkCircuitBreaker rhFail5 "p1:op1" 70).1.circuit_breakers
        "p1:op1" =
      some { created_at := 4, failure_count := 5, reset_timeout := 60,
             status := .halfOpen } ∧
    (afind (executeWithRetryRecord (checkCircuitBreaker rhFail5 "p1:op1"
        70).1 "p1:op1" 71 true).retry_counts "p1:op1").map
      RetryCounts.consecutive_failures = some 0 ∧
    afind (executeWithRetryRecord (checkCircuitBreaker rhFail5 "p1:op1"
        70).1 "p1:op1" 71 true).circuit_breakers "p1:op1" =
      some { created_at := 4, failure_count := 5, reset_timeout := 60,
             status := .halfOpen } :=
  c3_circuit_breaker_cycle {} "p1:op1" 0 1 2 3 4 30 70 71 rfl rfl
    (by norm_num) (by norm_num) rhFail5 rfl

/-- C3 counterexample: in the concrete scenario rhAfterSuccess (five
failures tripping the keyed breaker, a half-open check, then a success),
the success resets the consecutive-failure count but the breaker record
remains half-open — it never returns to closed, contradicting the claim's
final clause. -/
theorem c3_counterexample :
    (afind rhAfterSuccess.circuit_breakers "p1:op1").map BreakerRec.status =
      some CBStatus.halfOpen ∧
    (afind rhAfterSuccess.retry_counts "p1:op1").map
      RetryCounts.consecutive_failures = some 0 ∧
    ¬ ((afind rhAfterSuccess.circuit_breakers "p1:op1").map
        BreakerRec.status = some CBStatus.closed) := by
  decide

/-! ### Counting operations across the manager's queues -/

theorem heapCount_push (h : List QEntry) (x : QEntry) (id : String) :
    heapCount (heappush h x) id =
      heapCount h id + (if x.oid == id then 1 else 0) := by
  unfold heapCount
  rw [List.Perm.countP_eq _ (heappush_perm h x), List.countP_cons]

theorem heapCount_pop {h : List QEntry} {e : QEntry} {h1 : List QEntry}
    (id : String) (hp : heappop h = some (e, h1)) :
    heapCount h id = heapCount h1 id + (if e.oid == id then 1 else 0) := by
  unfold heapCount
  rw [List.Perm.countP_eq _ (heappop_perm hp), List.countP_cons]

theorem qlCount_cons (k : String) (w : PQState)
    (rest : List (String × PQState)) (id : String) :
    qlCount ((k, w) :: rest) id = heapCount w.queue id + qlCount rest id := by
  simp [qlCount]

theorem qlCount_aset (qs : List (String × PQState)) (qn : String)
    (q' : PQState) (id : String) :
    qlCount (aset qs qn q') id +
      (match afind qs qn with
       | some q => heapCount q.queue id
       | none => 0) =
    qlCount qs id + heapCount q'.queue id := by
  induction qs with
  | nil => simp [aset, afind, qlCount]
  | cons p rest ih =>
    obtain ⟨k, w⟩ := p
    by_cases hk : k = qn
    · subst hk
      have haset : aset ((k, w) :: rest) k q' = (k, q') :: rest := by
        simp [aset]
      have haf : afind ((k, w) :: rest) k = some w := by simp [afind]
      rw [haset, haf, qlCount_cons, qlCount_cons]
      dsimp only
      omega
    · have haset : aset ((k, w) :: rest) qn q' = (k, w) :: aset rest qn q' := by
        simp [aset, hk]
      have haf : afind ((k, w) :: rest) qn = afind rest qn := by
        simp [afind, hk]
      rw [haset, haf, qlCount_cons, qlCount_cons]
      omega

theorem qlCount_aset_found {qs : List (String × PQState)} {qn : String}
    {q : PQState} (q' : PQState) (id : String)
    (hfind : afind qs qn = some q) :
    qlCount (aset qs qn q') id + heapCount q.queue id =
      qlCount qs id + heapCount q'.queue id := by
  have h := qlCount_aset qs qn q' id
  rw [hfind] at h
  exact h

theorem qlCount_aset_none {qs : List (String × PQState)} {qn : String}
    (q' : PQState) (id : String) (hfind : afind qs qn = none) :
    qlCount (aset qs qn q') id = qlCount qs id + heapCount q'.queue id := by
  have h := qlCount_aset qs qn q' id
  rw [hfind] at h
  simpa using h

theorem afind_heapCount_le {qs : List (String × PQState)} {qn : String}
    {q : PQState} (id : String) (hfind : afind qs qn = some q) :
    heapCount q.queue id ≤ qlCount qs id := by
  induction qs with
  | nil => simp [afind] at hfind
  | cons p rest ih =>
    obtain ⟨k, w⟩ := p
    rw [qlCount_cons]
    by_cases hk : k = qn
    · rw [afind, if_pos hk] at hfind
      cases hfind
      omega
    · rw [afind, if_neg hk] at hfind
      have := ih hfind
      omega

/-! ### Effect of the manager's building blocks on the state -/

theorem updateStats_queues (s : MState) (op : Operation) (qn : String)
    (now : Int) : (updateStats s op qn now).queues = s.queues := rfl

theorem updateStats_store (s : MState) (op : Operation) (qn : String)
    (now : Int) : (updateStats s op qn now).store = s.store := rfl

theorem updateStats_active (s : MState) (op : Operation) (qn : String)
    (now : Int) : (updateStats s op qn now).active = s.active := rfl

theorem updateStats_running (s : MState) (op : Operation) (qn : String)
    (now : Int) : (updateStats s op qn now).running = s.running := rfl

theorem updateStats_pending (s : MState) (op : Operation) (qn : String)
    (now : Int) : (updateStats s op qn now).pending = s.pending := rfl

theorem updateStats_invocations (s : MState) (op : Operation) (qn : String)
    (now : Int) : (updateStats s op qn now).invocations = s.invocations := rfl

theorem updateStats_handlers (s : MState) (op : Operation) (qn : String)
    (now : Int) : (updateStats s op qn now).handlers = s.handlers := rfl

theorem finallyBlock_none {s : MState} {oid : String} (qn : String)
    (now : Int) (hop : afind s.store oid = none) :
    finallyBlock s oid qn now = s := by
  simp [finallyBlock, hop]

theorem finallyBlock_eq {s : MState} {oid : String} (qn : String) (now : Int)
    {op : Operation} (hop : afind s.store oid = some op) :
    finallyBlock s oid qn now =
      updateStats
        { s with store := aset s.store oid { op with completed_at := some now },
                 active := s.active.erase oid,
                 running := aremove s.running oid }
        { op with completed_at := some now } qn now := by
  simp [finallyBlock, hop]

theorem aset_aset {α : Type} (l : List (String × α)) (k : String) (v w : α) :
    aset (aset l k v) k w = aset l k w := by
  induction l with
  | nil => simp [aset]
  | cons p rest ih =>
    obtain ⟨k1, v1⟩ := p
    by_cases hk : k1 = k
    · simp [aset, hk]
    · simp [aset, hk, ih]

theorem finallyBlock_store {s : MState} {oid : String} (qn : String)
    (now : Int) {op : Operation} (hop : afind s.store oid = some op) :
    (finallyBlock s oid qn now).store =
      aset s.store oid ({ op with completed_at := some now }) := by
  rw [finallyBlock_eq qn now hop, updateStats_store]

theorem finallyBlock_queues {s : MState} {oid : String} (qn : String)
    (now : Int) {op : Operation} (hop : afind s.store oid = some op) :
    (finallyBlock s oid qn now).queues = s.queues := by
  rw [finallyBlock_eq qn now hop, updateStats_queues]

theorem finallyBlock_running {s : MState} {oid : String} (qn : String)
    (now : Int) {op : Operation} (hop : afind s.store oid = some op) :
    (finallyBlock s oid qn now).running = aremove s.running oid := by
  rw [finallyBlock_eq qn now hop, updateStats_running]

theorem finallyBlock_pending {s : MState} {oid : String} (qn : String)
    (now : Int) {op : Operation} (hop : afind s.store oid = some op) :
    (finallyBlock s oid qn now).pending = s.pending := by
  rw [finallyBlock_eq qn now hop, updateStats_pending]

theorem finallyBlock_invocations {s : MState} {oid : String} (qn : String)
    (now : Int) {op : Operation} (hop : afind s.store oid = some op) :
    (finallyBlock s oid qn now).invocations = s.invocations := by
  rw [finallyBlock_eq qn now hop, updateStats_invocations]

theorem finallyBlock_active {s : MState} {oid : String} (qn : String)
    (now : Int) {op : Operation} (hop : afind s.store oid = some op) :
    (finallyBlock s oid qn now).active = s.active.erase oid := by
  rw [finallyBlock_eq qn now hop, updateStats_active]

theorem finallyBlock_handlers {s : MState} {oid : String} (qn : String)
    (now : Int) {op : Operation} (hop : afind s.store oid = some op) :
    (finallyBlock s oid qn now).handlers = s.handlers := by
  rw [finallyBlock_eq qn now hop, updateStats_handlers]

theorem finallyBlock_store_self {s : MState} {oid : String} (qn : String)
    (now : Int) {op : Operation} (hop : afind s.store oid = some op) :
    afind (finallyBlock s oid qn now).store oid =
      some ({ op with completed_at := some now }) := by
  rw [finallyBlock_store qn now hop]
  exact afind_aset_self _ _ _

theorem finallyBlock_store_ne (s : MState) (oid qn : String) (now : Int)
    (id : String) (hne : oid ≠ id) :
    afind (finallyBlock s oid qn now).store id = afind s.store id := by
  cases hst : afind s.store oid with
  | none => rw [finallyBlock_none qn now hst]
  | some op => rw [finallyBlock_store qn now hst, afind_aset_ne _ _ _ _ hne]

theorem finallyBlock_queues_eq (s : MState) (oid qn : String) (now : Int) :
    (finallyBlock s oid qn now).queues = s.queues := by
  cases hst : afind s.store oid with
  | none => rw [finallyBlock_none qn now hst]
  | some op => exact finallyBlock_queues qn now hst

/-! ### Branch equations for the manager's steps -/

theorem retryOperation_eq (s : MState) (oid qn : String) (op : Operation)
    (e : OperationError) (now : Int) :
    retryOperation s oid qn op e now =
      if e.max_retries ≤ metaNat op.metadata "retry_count" then
        finallyBlock s oid qn now
      else
        { s with
          store := aset s.store oid
            ({ op with
               metadata := aset op.metadata "retry_count"
                 (MetaVal.natV (metaNat op.metadata "retry_count" + 1)),
               status := OperationStatus.retrying }),
          running := aremove s.running oid,
          pending := aset s.pending oid
            ({ delay := calculateRetryDelay e.retry_strategy
                 (metaNat op.metadata "retry_count" + 1) 1,
               qname := qn }) } := rfl

theorem errorPath_opError_eq (s : MState) (oid qn : String) (op : Operation)
    (e : OperationError) (now : Int) :
    errorPath s oid qn op (PyExc.opError e) now =
      (if e.retry_strategy ≠ RetryStrategy.noRetry then
        retryOperation
          ({ s with
             store := aset s.store oid
               ({ op with
                  status := OperationStatus.failed,
                  error := some e.message }) })
          oid qn
          ({ op with
             status := OperationStatus.failed,
             error := some e.message }) e now
      else
        finallyBlock
          ({ s with
             store := aset s.store oid
               ({ op with
                  status := OperationStatus.failed,
                  error := some e.message }) })
          oid qn now) := rfl

theorem errorPath_other_eq (s : MState) (oid qn : String) (op : Operation)
    (m : String) (now : Int) :
    errorPath s oid qn op (PyExc.other m) now =
      retryOperation
        ({ s with
           store := aset s.store oid
             ({ op with
                status := OperationStatus.failed,
                error := some m }) })
        oid qn
        ({ op with
           status := OperationStatus.failed,
           error := some m })
        ({ message := m, code := ErrorCode.unknown,
           retry_strategy := RetryStrategy.exponentialBackoff,
           max_retries := 3 }) now := rfl

theorem stepM_register_eq (s : MState) (c : String) :
    stepM s (MEvent.register c) =
      if c ∈ s.handlers then s
      else { s with handlers := c :: s.handlers } := rfl

theorem stepM_enqueue_eq (s : MState) (op : Operation) (qn : String) :
    stepM s (MEvent.enqueue op qn) =
      { s with
        store := aset s.store op.id ({ op with status := OperationStatus.queued }),
        queues := aset s.queues qn
          ({ queue := heappush ((afind s.queues qn).getD ({})).queue
              (entryOf ({ op with status := OperationStatus.queued })),
             entry_count := ((afind s.queues qn).getD ({})).entry_count + 1 }) } :=
  rfl

theorem stepM_begin_none (s : MState) (qn : String) (now : Int)
    (h : afind s.queues qn = none) :
    stepM s (MEvent.beginProcess qn now) = s := by
  simp [stepM, h]

theorem stepM_begin_empty (s : MState) (qn : String) (now : Int)
    {q : PQState} (hq : afind s.queues qn = some q)
    (hp : heappop q.queue = none) :
    stepM s (MEvent.beginProcess qn now) = s := by
  simp [stepM, hq, hp]

theorem stepM_begin_active (s : MState) (qn : String) (now : Int)
    {q : PQState} {e : QEntry} {h1 : List QEntry}
    (hq : afind s.queues qn = some q)
    (hp : heappop q.queue = some (e, h1)) (ha : e.oid ∈ s.active) :
    stepM s (MEvent.beginProcess qn now) = s := by
  simp [stepM, hq, hp, ha]

theorem stepM_begin_nostore (s : MState) (qn : String) (now : Int)
    {q : PQState} {e : QEntry} {h1 : List QEntry}
    (hq : afind s.queues qn = some q)
    (hp : heappop q.queue = some (e, h1)) (ha : e.oid ∉ s.active)
    (hst : afind s.store e.oid = none) :
    stepM s (MEvent.beginProcess qn now) = s := by
  simp [stepM, hq, hp, ha, hst]

theorem stepM_begin_handler (s : MState) (qn : String) (now : Int)
    {q : PQState} {e : QEntry} {h1 : List QEntry} {op : Operation}
    (hq : afind s.queues qn = some q)
    (hp : heappop q.queue = some (e, h1)) (ha : e.oid ∉ s.active)
    (hst : afind s.store e.oid = some op)
    (hcap : op.capability ∈ s.handlers) :
    stepM s (MEvent.beginProcess qn now) =
      { s with
        queues := aset s.queues qn ({ q with queue := h1 }),
        store := aset s.store e.oid
          ({ op with
             status := OperationStatus.running,
             started_at := some now }),
        active := e.oid :: s.active,
        running := aset s.running e.oid qn,
        invocations := s.invocations ++ [e.oid] } := by
  simp [stepM, hq, hp, ha, hst, hcap]

theorem stepM_begin_nohandler (s : MState) (qn : String) (now : Int)
    {q : PQState} {e : QEntry} {h1 : List QEntry} {op : Operation}
    (hq : afind s.queues qn = some q)
    (hp : heappop q.queue = some (e, h1)) (ha : e.oid ∉ s.active)
    (hst : afind s.store e.oid = some op)
    (hcap : op.capability ∉ s.handlers) :
    stepM s (MEvent.beginProcess qn now) =
      finallyBlock
        ({ s with
           queues := aset s.queues qn ({ q with queue := h1 }),
           store := aset s.store e.oid
             ({ op with
                status := OperationStatus.failed,
                started_at := some now,
                error := some ("No handler found for capability: " ++
                  op.capability) }),
           active := e.oid :: s.active }) e.oid qn now := by
  simp [stepM, hq, hp, ha, hst, hcap, aset_aset]

theorem stepM_finish_norun (s : MState) (oid : String)
    (outcome : HandlerOutcome) (now : Int)
    (h : afind s.running oid = none) :
    stepM s (MEvent.finishProcess oid outcome now) = s := by
  simp [stepM, h]

theorem stepM_finish_nostore (s : MState) (oid : String)
    (outcome : HandlerOutcome) (now : Int)
    (h : afind s.store oid = none) :
    stepM s (MEvent.finishProcess oid outcome now) = s := by
  cases hr : afind s.running oid with
  | none => simp [stepM, hr]
  | some qn => simp [stepM, hr, h]

theorem stepM_finish_success (s : MState) (oid : String)
    (r : List (String × MetaVal)) (now : Int) {qn : String} {op : Operation}
    (hr : afind s.running oid = some qn)
    (hst : afind s.store oid = some op) :
    stepM s (MEvent.finishProcess oid (HandlerOutcome.success r) now) =
      finallyBlock
        ({ s with
           store := aset s.store oid
             ({ op with
                result := some r,
                status := OperationStatus.completed }) })
        oid qn now := by
  simp [stepM, hr, hst]

theorem stepM_finish_raiseOp (s : MState) (oid : String)
    (e : OperationError) (now : Int) {qn : String} {op : Operation}
    (hr : afind s.running oid = some qn)
    (hst : afind s.store oid = some op) :
    stepM s (MEvent.finishProcess oid (HandlerOutcome.raiseOp e) now) =
      errorPath s oid qn op (PyExc.opError e) now := by
  simp [stepM, hr, hst]

theorem stepM_finish_raiseOther (s : MState) (oid : String)
    (m : String) (now : Int) {qn : String} {op : Operation}
    (hr : afind s.running oid = some qn)
    (hst : afind s.store oid = some op) :
    stepM s (MEvent.finishProcess oid (HandlerOutcome.raiseOther m) now) =
      errorPath s oid qn op (PyExc.other m) now := by
  simp [stepM, hr, hst]

theorem stepM_finish_timeout (s : MState) (oid : String) (now : Int)
    {qn : String} {op : Operation}
    (hr : afind s.running oid = some qn)
    (hst : afind s.store oid = some op) :
    stepM s (MEvent.finishProcess oid HandlerOutcome.timeout now) =
      errorPath s oid qn op
        (PyExc.opError (timeoutError "Operation timed out")) now := by
  simp [stepM, hr, hst]

theorem stepM_cr_nopend (s : MState) (oid : String) (now : Int)
    (h : afind s.pending oid = none) :
    stepM s (MEvent.completeRetry oid now) = s := by
  simp [stepM, h]

theorem stepM_cr_nostore (s : MState) (oid : String) (now : Int)
    (h : afind s.store oid = none) :
    stepM s (MEvent.completeRetry oid now) = s := by
  cases hp : afind s.pending oid with
  | none => simp [stepM, hp]
  | some pi => simp [stepM, hp, h]

theorem stepM_cr_eq (s : MState) (oid : String) (now : Int)
    {pi : PendInfo} {op : Operation}
    (hp : afind s.pending oid = some pi)
    (hst : afind s.store oid = some op) :
    stepM s (MEvent.completeRetry oid now) =
      finallyBlock ({ s with
        store := aset s.store oid ({ op with status := OperationStatus.queued }),
        queues := aset s.queues "default"
          ({ queue := heappush ((afind s.queues "default").getD ({})).queue
              (entryOf ({ op with status := OperationStatus.queued })),
             entry_count := ((afind s.queues "default").getD ({})).entry_count + 1 }),
        pending := aremove s.pending oid }) oid pi.qname now := by
  simp [stepM, hp, hst]

/-! ### Preservation of the consistency invariant -/

theorem minv_finallyBlockGen (s : MState) (oid qn : String) (now : Int)
    (op : Operation) (hst : afind s.store oid = some op)
    (hsid : ∀ id op', afind s.store id = some op' → op'.id = id)
    (hqs : ∀ id, 0 < queuesCount s id →
      ∃ op', afind s.store id = some op' ∧
        op'.status = OperationStatus.queued)
    (hqo : ∀ id, queuesCount s id ≤ 1)
    (hrs : ∀ id qn', id ≠ oid → afind s.running id = some qn' →
      ∃ op', afind s.store id = some op' ∧
        op'.status = OperationStatus.running)
    (hps : ∀ id pi, afind s.pending id = some pi →
      ∃ op', afind s.store id = some op' ∧
        op'.status = OperationStatus.retrying) :
    MInv (finallyBlock s oid qn now) := by
  have hS := finallyBlock_store qn now hst
  have hQ := finallyBlock_queues qn now hst
  have hR := finallyBlock_running qn now hst
  have hP := finallyBlock_pending qn now hst
  have hcount : ∀ id, queuesCount (finallyBlock s oid qn now) id =
      queuesCount s id := by
    intro id
    unfold queuesCount
    rw [hQ]
  refine ⟨?_, ?_, ?_, ?_, ?_⟩
  · intro id op' h'
    rw [hS] at h'
    by_cases hid : oid = id
    · subst hid
      rw [afind_aset_self] at h'
      cases h'
      exact hsid oid op hst
    · rw [afind_aset_ne _ _ _ _ hid] at h'
      exact hsid id op' h'
  · intro id hpos
    rw [hcount id] at hpos
    obtain ⟨op0, h0, hq0⟩ := hqs id hpos
    by_cases hid : oid = id
    · subst hid
      rw [hst] at h0
      cases h0
      refine ⟨{ op with completed_at := some now }, ?_, hq0⟩
      rw [hS]
      exact afind_aset_self _ _ _
    · refine ⟨op0, ?_, hq0⟩
      rw [hS, afind_aset_ne _ _ _ _ hid]
      exact h0
  · intro id
    rw [hcount id]
    exact hqo id
  · intro id qn' h'
    rw [hR] at h'
    by_cases hid : oid = id
    · subst hid
      rw [afind_aremove_self] at h'
      cases h'
    · rw [afind_aremove_ne _ _ _ hid] at h'
      obtain ⟨op0, h0, hr0⟩ := hrs id qn' (fun he => hid he.symm) h'
      refine ⟨op0, ?_, hr0⟩
      rw [hS, afind_aset_ne _ _ _ _ hid]
      exact h0
  · intro id pi h'
    rw [hP] at h'
    obtain ⟨op0, h0, hp0⟩ := hps id pi h'
    by_cases hid : oid = id
    · subst hid
      rw [hst] at h0
      cases h0
      refine ⟨{ op with completed_at := some now }, ?_, hp0⟩
      rw [hS]
      exact afind_aset_self _ _ _
    · refine ⟨op0, ?_, hp0⟩
      rw [hS, afind_aset_ne _ _ _ _ hid]
      exact h0

theorem minv_retryOperation (s : MState) (oid qn : String) (op : Operation)
    (e : OperationError) (now : Int)
    (hst : afind s.store oid = some op)
    (hnq : op.status ≠ OperationStatus.queued)
    (hsid : ∀ id op', afind s.store id = some op' → op'.id = id)
    (hqs : ∀ id, 0 < queuesCount s id →
      ∃ op', afind s.store id = some op' ∧
        op'.status = OperationStatus.queued)
    (hqo : ∀ id, queuesCount s id ≤ 1)
    (hrs : ∀ id qn', id ≠ oid → afind s.running id = some qn' →
      ∃ op', afind s.store id = some op' ∧
        op'.status = OperationStatus.running)
    (hps : ∀ id pi, afind s.pending id = some pi →
      ∃ op', afind s.store id = some op' ∧
        op'.status = OperationStatus.retrying) :
    MInv (retryOperation s oid qn op e now) := by
  have hoid : op.id = oid := hsid oid op hst
  have hzero : queuesCount s oid = 0 := by
    by_contra hne
    obtain ⟨op0, h0, hq0⟩ := hqs oid (Nat.pos_of_ne_zero hne)
    rw [hst] at h0
    cases h0
    exact hnq hq0
  by_cases hrc : e.max_retries ≤ metaNat op.metadata "retry_count"
  · rw [retryOperation_eq, if_pos hrc]
    exact minv_finallyBlockGen s oid qn now op hst hsid hqs hqo hrs hps
  · rw [retryOperation_eq, if_neg hrc]
    refine ⟨?_, ?_, ?_, ?_, ?_⟩
    · intro id op' h'
      dsimp only at h'
      by_cases hid : oid = id
      · subst hid
        rw [afind_aset_self] at h'
        cases h'
        exact hoid
      · rw [afind_aset_ne _ _ _ _ hid] at h'
        exact hsid id op' h'
    · intro id hpos
      obtain ⟨op0, h0, hq0⟩ := hqs id hpos
      by_cases hid : oid = id
      · subst hid
        rw [hst] at h0
        cases h0
        exact absurd hq0 hnq
      · refine ⟨op0, ?_, hq0⟩
        dsimp only
        rw [afind_aset_ne _ _ _ _ hid]
        exact h0
    · intro id
      exact hqo id
    · intro id qn' h'
      dsimp only at h'
      by_cases hid : oid = id
      · subst hid
        rw [afind_aremove_self] at h'
        cases h'
      · rw [afind_aremove_ne _ _ _ hid] at h'
        obtain ⟨op0, h0, hr0⟩ := hrs id qn' (fun he => hid he.symm) h'
        refine ⟨op0, ?_, hr0⟩
        dsimp only
        rw [afind_aset_ne _ _ _ _ hid]
        exact h0
    · intro id pi h'
      dsimp only at h'
      by_cases hid : oid = id
      · subst hid
        rw [afind_aset_self] at h'
        cases h'
        exact ⟨_, afind_aset_self _ _ _, rfl⟩
      · rw [afind_aset_ne _ _ _ _ hid] at h'
        obtain ⟨op0, h0, hp0⟩ := hps id pi h'
        refine ⟨op0, ?_, hp0⟩
        dsimp only
        rw [afind_aset_ne _ _ _ _ hid]
        exact h0

theorem minv_errorPath (s : MState) (oid qn : String) (op : Operation)
    (exc : PyExc) (now : Int)
    (hst : afind s.store oid = some op)
    (hnq : op.status ≠ OperationStatus.queued)
    (hsid : ∀ id op', afind s.store id = some op' → op'.id = id)
    (hqs : ∀ id, 0 < queuesCount s id →
      ∃ op', afind s.store id = some op' ∧
        op'.status = OperationStatus.queued)
    (hqo : ∀ id, queuesCount s id ≤ 1)
    (hrs : ∀ id qn', id ≠ oid → afind s.running id = some qn' →
      ∃ op', afind s.store id = some op' ∧
        op'.status = OperationStatus.running)
    (hps : ∀ id pi, afind s.pending id = some pi →
      ∃ op', afind s.store id = some op' ∧
        op'.status = OperationStatus.retrying)
    (hpo : afind s.pending oid = none) :
    MInv (errorPath s oid qn op exc now) := by
  have hoid : op.id = oid := hsid oid op hst
  have hzero : queuesCount s oid = 0 := by
    by_contra hne
    obtain ⟨op0, h0, hq0⟩ := hqs oid (Nat.pos_of_ne_zero hne)
    rw [hst] at h0
    cases h0
    exact hnq hq0
  have hst1 : ∀ m, afind (aset s.store oid
      ({ op with status := OperationStatus.failed, error := some m })) oid =
      some ({ op with status := OperationStatus.failed, error := some m }) :=
    fun m => afind_aset_self _ _ _
  have hsid1 : ∀ m id op', afind (aset s.store oid
      ({ op with status := OperationStatus.failed, error := some m })) id =
      some op' → op'.id = id := by
    intro m id op' h'
    by_cases hid : oid = id
    · subst hid
      rw [afind_aset_self] at h'
      cases h'
      exact hoid
    · rw [afind_aset_ne _ _ _ _ hid] at h'
      exact hsid id op' h'
  have hqs1 : ∀ m id, 0 < queuesCount s id →
      ∃ op', afind (aset s.store oid
        ({ op with status := OperationStatus.failed, error := some m })) id =
        some op' ∧ op'.status = OperationStatus.queued := by
    intro m id hpos
    by_cases hid : oid = id
    · subst hid
      rw [hzero] at hpos
      omega
    · obtain ⟨op0, h0, hq0⟩ := hqs id hpos
      refine ⟨op0, ?_, hq0⟩
      rw [afind_aset_ne _ _ _ _ hid]
      exact h0
  have hrs1 : ∀ m id qn', id ≠ oid → afind s.running id = some qn' →
      ∃ op', afind (aset s.store oid
        ({ op with status := OperationStatus.failed, error := some m })) id =
        some op' ∧ op'.status = OperationStatus.running := by
    intro m id qn' hid h'
    obtain ⟨op0, h0, hr0⟩ := hrs id qn' hid h'
    refine ⟨op0, ?_, hr0⟩
    rw [afind_aset_ne _ _ _ _ (fun he => hid he.symm)]
    exact h0
  have hps1 : ∀ m id pi, afind s.pending id = some pi →
      ∃ op', afind (aset s.store oid
        ({ op with status := OperationStatus.failed, error := some m })) id =
        some op' ∧ op'.status = OperationStatus.retrying := by
    intro m id pi h'
    by_cases hid : oid = id
    · subst hid
      rw [hpo] at h'
      cases h'
    · obtain ⟨op0, h0, hp0⟩ := hps id pi h'
      refine ⟨op0, ?_, hp0⟩
      rw [afind_aset_ne _ _ _ _ hid]
      exact h0
  have hnq1 : ∀ m,
      ({ op with
         status := OperationStatus.failed,
         error := some m } : Operation).status ≠ OperationStatus.queued := by
    intro m h
    exact OperationStatus.noConfusion h
  cases exc with
  | opError e =>
    rw [errorPath_opError_eq]
    by_cases hnr : e.retry_strategy = RetryStrategy.noRetry
    · rw [if_neg (fun hh => hh hnr)]
      exact minv_finallyBlockGen _ oid qn now _ (hst1 e.message)
        (hsid1 e.message) (hqs1 e.message) hqo (hrs1 e.message)
        (hps1 e.message)
    · rw [if_pos hnr]
      exact minv_retryOperation _ oid qn _ e now (hst1 e.message)
        (hnq1 e.message) (hsid1 e.message) (hqs1 e.message) hqo
        (hrs1 e.message) (hps1 e.message)
  | other m =>
    rw [errorPath_other_eq]
    exact minv_retryOperation _ oid qn _ _ now (hst1 m)
      (hnq1 m) (hsid1 m) (hqs1 m) hqo (hrs1 m) (hps1 m)

theorem minv_register (s : MState) (c : String) (hinv : MInv s) :
    MInv (stepM s (MEvent.register c)) := by
  rw [stepM_register_eq]
  by_cases hc : c ∈ s.handlers
  · rw [if_pos hc]
    exact hinv
  · rw [if_neg hc]
    exact ⟨hinv.store_id, hinv.queued_status, hinv.queued_once,
      hinv.running_status, hinv.pending_status⟩

theorem enqueue_count (s : MState) (op : Operation) (qn id : String) :
    queuesCount (stepM s (MEvent.enqueue op qn)) id =
      queuesCount s id + (if op.id == id then 1 else 0) := by
  rw [stepM_enqueue_eq]
  unfold queuesCount
  dsimp only
  have hent : (entryOf ({ op with status := OperationStatus.queued })).oid
      = op.id := rfl
  cases hq : afind s.queues qn with
  | none =>
    simp only [hq, Option.getD_none]
    rw [qlCount_aset_none _ id hq]
    dsimp only
    rw [heapCount_push, hent]
    have hz : heapCount ([] : List QEntry) id = 0 := rfl
    omega
  | some qd =>
    simp only [hq, Option.getD_some]
    have hfound := qlCount_aset_found
      ({ queue := heappush qd.queue
          (entryOf ({ op with status := OperationStatus.queued })),
         entry_count := qd.entry_count + 1 }) id hq
    dsimp only at hfound
    rw [heapCount_push, hent] at hfound
    omega

theorem minv_enqueue (s : MState) (op : Operation) (qn : String)
    (hfresh : afind s.store op.id = none) (hinv : MInv s) :
    MInv (stepM s (MEvent.enqueue op qn)) := by
  have hzero : queuesCount s op.id = 0 := by
    by_contra hne
    obtain ⟨op0, h0, _⟩ := hinv.queued_status op.id (Nat.pos_of_ne_zero hne)
    rw [hfresh] at h0
    cases h0
  have hcnt := enqueue_count s op qn
  refine ⟨?_, ?_, ?_, ?_, ?_⟩
  · intro id op' h'
    rw [stepM_enqueue_eq] at h'
    dsimp only at h'
    by_cases hid : op.id = id
    · subst hid
      rw [afind_aset_self] at h'
      cases h'
      rfl
    · rw [afind_aset_ne _ _ _ _ hid] at h'
      exact hinv.store_id id op' h'
  · intro id hpos
    rw [hcnt id] at hpos
    by_cases hid : op.id = id
    · subst hid
      refine ⟨{ op with status := OperationStatus.queued }, ?_, rfl⟩
      rw [stepM_enqueue_eq]
      dsimp only
      exact afind_aset_self _ _ _
    · have hb : (op.id == id) = false := by simp [hid]
      rw [hb] at hpos
      simp at hpos
      obtain ⟨op0, h0, hq0⟩ := hinv.queued_status id hpos
      refine ⟨op0, ?_, hq0⟩
      rw [stepM_enqueue_eq]
      dsimp only
      rw [afind_aset_ne _ _ _ _ hid]
      exact h0
  · intro id
    rw [hcnt id]
    by_cases hid : op.id = id
    · subst hid
      rw [hzero]
      simp
    · have hb : (op.id == id) = false := by simp [hid]
      rw [hb]
      simpa using hinv.queued_once id
  · intro id qn' h'
    rw [stepM_enqueue_eq] at h'
    dsimp only at h'
    obtain ⟨op0, h0, hr0⟩ := hinv.running_status id qn' h'
    have hid : op.id ≠ id := by
      intro he
      rw [he] at hfresh
      rw [hfresh] at h0
      cases h0
    refine ⟨op0, ?_, hr0⟩
    rw [stepM_enqueue_eq]
    dsimp only
    rw [afind_aset_ne _ _ _ _ hid]
    exact h0
  · intro id pi h'
    rw [stepM_enqueue_eq] at h'
    dsimp only at h'
    obtain ⟨op0, h0, hp0⟩ := hinv.pending_status id pi h'
    have hid : op.id ≠ id := by
      intro he
      rw [he] at hfresh
      rw [hfresh] at h0
      cases h0
    refine ⟨op0, ?_, hp0⟩
    rw [stepM_enqueue_eq]
    dsimp only
    rw [afind_aset_ne _ _ _ _ hid]
    exact h0

theorem begin_popped_queued (s : MState) (qn : String) {q : PQState}
    {e : QEntry} {h1 : List QEntry} (hinv : MInv s)
    (hq : afind s.queues qn = some q)
    (hpop : heappop q.queue = some (e, h1)) :
    ∃ op0, afind s.store e.oid = some op0 ∧
      op0.status = OperationStatus.queued := by
  have hle := afind_heapCount_le e.oid hq
  have hcp := heapCount_pop e.oid hpop
  simp at hcp
  have hpos : 0 < queuesCount s e.oid := by
    unfold queuesCount
    omega
  exact hinv.queued_status e.oid hpos

theorem begin_count (s : MState) (qn : String) {q : PQState} {e : QEntry}
    {h1 : List QEntry} (hq : afind s.queues qn = some q)
    (hpop : heappop q.queue = some (e, h1)) (id : String) :
    qlCount (aset s.queues qn ({ q with queue := h1 })) id +
      (if e.oid == id then 1 else 0) = qlCount s.queues id := by
  have hfound := qlCount_aset_found ({ q with queue := h1 }) id hq
  dsimp only at hfound
  have hcp := heapCount_pop id hpop
  omega

theorem minv_begin (s : MState) (qn : String) (now : Int) (hinv : MInv s) :
    MInv (stepM s (MEvent.beginProcess qn now)) := by
  cases hq : afind s.queues qn with
  | none =>
    rw [stepM_begin_none s qn now hq]
    exact hinv
  | some q =>
    cases hpop : heappop q.queue with
    | none =>
      rw [stepM_begin_empty s qn now hq hpop]
      exact hinv
    | some pr =>
      obtain ⟨e, h1⟩ := pr
      by_cases hact : e.oid ∈ s.active
      · rw [stepM_begin_active s qn now hq hpop hact]
        exact hinv
      · cases hst : afind s.store e.oid with
        | none =>
          rw [stepM_begin_nostore s qn now hq hpop hact hst]
          exact hinv
        | some op =>
          have hstatq : op.status = OperationStatus.queued := by
            obtain ⟨op0, h0, hq0⟩ := begin_popped_queued s qn hinv hq hpop
            rw [hst] at h0
            cases h0
            exact hq0
          have hrun_e : afind s.running e.oid = none := by
            cases hre : afind s.running e.oid with
            | none => rfl
            | some qn1 =>
              obtain ⟨op0, h0, hr0⟩ := hinv.running_status e.oid qn1 hre
              rw [hst] at h0
              cases h0
              rw [hstatq] at hr0
              exact OperationStatus.noConfusion hr0
          have hpend_e : afind s.pending e.oid = none := by
            cases hpe : afind s.pending e.oid with
            | none => rfl
            | some pi =>
              obtain ⟨op0, h0, hp0⟩ := hinv.pending_status e.oid pi hpe
              rw [hst] at h0
              cases h0
              rw [hstatq] at hp0
              exact OperationStatus.noConfusion hp0
          have hcnt := begin_count s qn hq hpop
          have hzero_e : qlCount (aset s.queues qn ({ q with queue := h1 }))
              e.oid = 0 := by
            have hc := hcnt e.oid
            simp at hc
            have h2 := hinv.queued_once e.oid
            unfold queuesCount at h2
            omega
          by_cases hcap : op.capability ∈ s.handlers
          · rw [stepM_begin_handler s qn now hq hpop hact hst hcap]
            refine ⟨?_, ?_, ?_, ?_, ?_⟩
            · intro id op' h'
              dsimp only at h'
              by_cases hid : e.oid = id
              · subst hid
                rw [afind_aset_self] at h'
                cases h'
                exact hinv.store_id e.oid op hst
              · rw [afind_aset_ne _ _ _ _ hid] at h'
                exact hinv.store_id id op' h'
            · intro id hpos
              have hpos' : 0 < qlCount (aset s.queues qn
                  ({ q with queue := h1 })) id := hpos
              by_cases hid : e.oid = id
              · subst hid
                rw [hzero_e] at hpos'
                omega
              · have hb : (e.oid == id) = false := by simp [hid]
                have hc := hcnt id
                rw [hb] at hc
                simp at hc
                rw [hc] at hpos'
                obtain ⟨op0, h0, hq0⟩ := hinv.queued_status id hpos'
                refine ⟨op0, ?_, hq0⟩
                dsimp only
                rw [afind_aset_ne _ _ _ _ hid]
                exact h0
            · intro id
              show qlCount (aset s.queues qn ({ q with queue := h1 })) id ≤ 1
              have hc := hcnt id
              have h2 := hinv.queued_once id
              unfold queuesCount at h2
              omega
            · intro id qn1 h'
              dsimp only at h'
              by_cases hid : e.oid = id
              · subst hid
                rw [afind_aset_self] at h'
                cases h'
                exact ⟨_, afind_aset_self _ _ _, rfl⟩
              · rw [afind_aset_ne _ _ _ _ hid] at h'
                obtain ⟨op0, h0, hr0⟩ := hinv.running_status id qn1 h'
                refine ⟨op0, ?_, hr0⟩
                dsimp only
                rw [afind_aset_ne _ _ _ _ hid]
                exact h0
            · intro id pi h'
              dsimp only at h'
              by_cases hid : e.oid = id
              · subst hid
                rw [hpend_e] at h'
                cases h'
              · obtain ⟨op0, h0, hp0⟩ := hinv.pending_status id pi h'
                refine ⟨op0, ?_, hp0⟩
                dsimp only
                rw [afind_aset_ne _ _ _ _ hid]
                exact h0
          · rw [stepM_begin_nohandler s qn now hq hpop hact hst hcap]
            refine minv_finallyBlockGen _ e.oid qn now _
              (afind_aset_self _ _ _) ?_ ?_ ?_ ?_ ?_
            · intro id op' h'
              dsimp only at h'
              by_cases hid : e.oid = id
              · subst hid
                rw [afind_aset_self] at h'
                cases h'
                exact hinv.store_id e.oid op hst
              · rw [afind_aset_ne _ _ _ _ hid] at h'
                exact hinv.store_id id op' h'
            · intro id hpos
              have hpos' : 0 < qlCount (aset s.queues qn
                  ({ q with queue := h1 })) id := hpos
              by_cases hid : e.oid = id
              · subst hid
                rw [hzero_e] at hpos'
                omega
              · have hb : (e.oid == id) = false := by simp [hid]
                have hc := hcnt id
                rw [hb] at hc
                simp at hc
                rw [hc] at hpos'
                obtain ⟨op0, h0, hq0⟩ := hinv.queued_status id hpos'
                refine ⟨op0, ?_, hq0⟩
                dsimp only
                rw [afind_aset_ne _ _ _ _ hid]
                exact h0
            · intro id
              show qlCount (aset s.queues qn ({ q with queue := h1 })) id ≤ 1
              have hc := hcnt id
              have h2 := hinv.queued_once id
              unfold queuesCount at h2
              omega
            · intro id qn1 hid h'
              dsimp only at h'
              obtain ⟨op0, h0, hr0⟩ := hinv.running_status id qn1 h'
              refine ⟨op0, ?_, hr0⟩
              dsimp only
              rw [afind_aset_ne _ _ _ _ (fun he => hid he.symm)]
              exact h0
            · intro id pi h'
              dsimp only at h'
              by_cases hid : e.oid = id
              · subst hid
                rw [hpend_e] at h'
                cases h'
              · obtain ⟨op0, h0, hp0⟩ := hinv.pending_status id pi h'
                refine ⟨op0, ?_, hp0⟩
                dsimp only
                rw [afind_aset_ne _ _ _ _ hid]
                exact h0

theorem minv_finish (s : MState) (oid : String) (outcome : HandlerOutcome)
    (now : Int) (hinv : MInv s) :
    MInv (stepM s (MEvent.finishProcess oid outcome now)) := by
  cases hr : afind s.running oid with
  | none =>
    rw [stepM_finish_norun s oid outcome now hr]
    exact hinv
  | some qn =>
    cases hst : afind s.store oid with
    | none =>
      rw [stepM_finish_nostore s oid outcome now hst]
      exact hinv
    | some op =>
      have hrop : op.status = OperationStatus.running := by
        obtain ⟨op0, h0, hr0⟩ := hinv.running_status oid qn hr
        rw [hst] at h0
        cases h0
        exact hr0
      have hnq : op.status ≠ OperationStatus.queued := by
        rw [hrop]
        exact fun h => OperationStatus.noConfusion h
      have hpo : afind s.pending oid = none := by
        cases hpe : afind s.pending oid with
        | none => rfl
        | some pi =>
          obtain ⟨op0, h0, hp0⟩ := hinv.pending_status oid pi hpe
          rw [hst] at h0
          cases h0
          rw [hrop] at hp0
          exact OperationStatus.noConfusion hp0
      cases outcome with
      | success r =>
        rw [stepM_finish_success s oid r now hr hst]
        refine minv_finallyBlockGen _ oid qn now _
          (afind_aset_self _ _ _) ?_ ?_ ?_ ?_ ?_
        · intro id op' h'
          dsimp only at h'
          by_cases hid : oid = id
          · subst hid
            rw [afind_aset_self] at h'
            cases h'
            exact hinv.store_id oid op hst
          · rw [afind_aset_ne _ _ _ _ hid] at h'
            exact hinv.store_id id op' h'
        · intro id hpos
          obtain ⟨op0, h0, hq0⟩ := hinv.queued_status id hpos
          by_cases hid : oid = id
          · subst hid
            rw [hst] at h0
            cases h0
            exact absurd hq0 hnq
          · refine ⟨op0, ?_, hq0⟩
            dsimp only
            rw [afind_aset_ne _ _ _ _ hid]
            exact h0
        · intro id
          exact hinv.queued_once id
        · intro id qn1 hid h'
          dsimp only at h'
          obtain ⟨op0, h0, hr0⟩ := hinv.running_status id qn1 h'
          refine ⟨op0, ?_, hr0⟩
          dsimp only
          rw [afind_aset_ne _ _ _ _ (fun he => hid he.symm)]
          exact h0
        · intro id pi h'
          dsimp only at h'
          by_cases hid : oid = id
          · subst hid
            rw [hpo] at h'
            cases h'
          · obtain ⟨op0, h0, hp0⟩ := hinv.pending_status id pi h'
            refine ⟨op0, ?_, hp0⟩
            dsimp only
            rw [afind_aset_ne _ _ _ _ hid]
            exact h0
      | raiseOp e =>
        rw [stepM_finish_raiseOp s oid e now hr hst]
        exact minv_errorPath s oid qn op (PyExc.opError e) now hst hnq
          hinv.store_id hinv.queued_status hinv.queued_once
          (fun id qn1 hid h' => hinv.running_status id qn1 h')
          hinv.pending_status hpo
      | raiseOther m =>
        rw [stepM_finish_raiseOther s oid m now hr hst]
        exact minv_errorPath s oid qn op (PyExc.other m) now hst hnq
          hinv.store_id hinv.queued_status hinv.queued_once
          (fun id qn1 hid h' => hinv.running_status id qn1 h')
          hinv.pending_status hpo
      | timeout =>
        rw [stepM_finish_timeout s oid now hr hst]
        exact minv_errorPath s oid qn op
          (PyExc.opError (timeoutError "Operation timed out")) now hst hnq
          hinv.store_id hinv.queued_status hinv.queued_once
          (fun id qn1 hid h' => hinv.running_status id qn1 h')
          hinv.pending_status hpo

theorem push_count (qs : List (String × PQState)) (qn : String)
    (x : QEntry) (id : String) :
    qlCount (aset qs qn
      ({ queue := heappush ((afind qs qn).getD ({})).queue x,
         entry_count := ((afind qs qn).getD ({})).entry_count + 1 })) id
      = qlCount qs id + (if x.oid == id then 1 else 0) := by
  cases hq : afind qs qn with
  | none =>
    simp only [hq, Option.getD_none]
    rw [qlCount_aset_none _ id hq]
    dsimp only
    rw [heapCount_push]
    have hz : heapCount ([] : List QEntry) id = 0 := rfl
    omega
  | some qd =>
    simp only [hq, Option.getD_some]
    have hfound := qlCount_aset_found
      ({ queue := heappush qd.queue x,
         entry_count := qd.entry_count + 1 }) id hq
    dsimp only at hfound
    rw [heapCount_push] at hfound
    omega

theorem minv_completeRetry (s : MState) (oid : String) (now : Int)
    (hinv : MInv s) : MInv (stepM s (MEvent.completeRetry oid now)) := by
  cases hpe : afind s.pending oid with
  | none =>
    rw [stepM_cr_nopend s oid now hpe]
    exact hinv
  | some pi =>
    cases hst : afind s.store oid with
    | none =>
      rw [stepM_cr_nostore s oid now hst]
      exact hinv
    | some op =>
      have hoid : op.id = oid := hinv.store_id oid op hst
      have hretry : op.status = OperationStatus.retrying := by
        obtain ⟨op0, h0, hp0⟩ := hinv.pending_status oid pi hpe
        rw [hst] at h0
        cases h0
        exact hp0
      have hzero : queuesCount s oid = 0 := by
        by_contra hne
        obtain ⟨op0, h0, hq0⟩ := hinv.queued_status oid (Nat.pos_of_ne_zero hne)
        rw [hst] at h0
        cases h0
        rw [hretry] at hq0
        exact OperationStatus.noConfusion hq0
      have hcnt := push_count s.queues "default"
        (entryOf ({ op with status := OperationStatus.queued }))
      have hent : (entryOf ({ op with status := OperationStatus.queued })).oid
          = op.id := rfl
      rw [stepM_cr_eq s oid now hpe hst]
      refine minv_finallyBlockGen _ oid (pi.qname) now _
        (afind_aset_self _ _ _) ?_ ?_ ?_ ?_ ?_
      · intro id op' h'
        dsimp only at h'
        by_cases hid : oid = id
        · subst hid
          rw [afind_aset_self] at h'
          cases h'
          exact hoid
        · rw [afind_aset_ne _ _ _ _ hid] at h'
          exact hinv.store_id id op' h'
      · intro id hpos
        have hpos' : 0 < qlCount (aset s.queues "default"
            ({ queue := heappush ((afind s.queues "default").getD ({})).queue
                (entryOf ({ op with status := OperationStatus.queued })),
               entry_count :=
                 ((afind s.queues "default").getD ({})).entry_count + 1 })) id :=
          hpos
        rw [hcnt id, hent] at hpos'
        by_cases hid : oid = id
        · subst hid
          refine ⟨{ op with status := OperationStatus.queued }, ?_, rfl⟩
          dsimp only
          exact afind_aset_self _ _ _
        · have hb : (op.id == id) = false := by simp [hoid, hid]
          rw [hb] at hpos'
          simp at hpos'
          obtain ⟨op0, h0, hq0⟩ := hinv.queued_status id hpos'
          refine ⟨op0, ?_, hq0⟩
          dsimp only
          rw [afind_aset_ne _ _ _ _ hid]
          exact h0
      · intro id
        show qlCount (aset s.queues "default"
            ({ queue := heappush ((afind s.queues "default").getD ({})).queue
                (entryOf ({ op with status := OperationStatus.queued })),
               entry_count :=
                 ((afind s.queues "default").getD ({})).entry_count + 1 })) id
          ≤ 1
        rw [hcnt id, hent]
        by_cases hid : oid = id
        · subst hid
          have hz2 : qlCount s.queues oid = 0 := hzero
          rw [hoid, hz2]
          simp
        · have hb : (op.id == id) = false := by simp [hoid, hid]
          rw [hb]
          have h2 : qlCount s.queues id ≤ 1 := hinv.queued_once id
          simp
          exact h2
      · intro id qn1 hid h'
        dsimp only at h'
        obtain ⟨op0, h0, hr0⟩ := hinv.running_status id qn1 h'
        refine ⟨op0, ?_, hr0⟩
        dsimp only
        rw [afind_aset_ne _ _ _ _ (fun he => hid he.symm)]
        exact h0
      · intro id pi2 h'
        dsimp only at h'
        by_cases hid : oid = id
        · subst hid
          rw [afind_aremove_self] at h'
          cases h'
        · rw [afind_aremove_ne _ _ _ hid] at h'
          obtain ⟨op0, h0, hp0⟩ := hinv.pending_status id pi2 h'
          refine ⟨op0, ?_, hp0⟩
          dsimp only
          rw [afind_aset_ne _ _ _ _ hid]
          exact h0

theorem stepM_inv (s : MState) (ev : MEvent)
    (hwf : wfGuard s ev = true)
    (hinv : MInv s) : MInv (stepM s ev) := by
  cases ev with
  | register c => exact minv_register s c hinv
  | enqueue op qn =>
    have h : (afind s.store op.id).isNone = true := hwf
    rw [Option.isNone_iff_eq_none] at h
    exact minv_enqueue s op qn h hinv
  | beginProcess qn now => exact minv_begin s qn now hinv
  | finishProcess oid outcome now => exact minv_finish s oid outcome now hinv
  | completeRetry oid now => exact minv_completeRetry s oid now hinv

theorem minv_init : MInv ({}) := by
  refine ⟨?_, ?_, ?_, ?_, ?_⟩
  · intro id op h
    exact Option.noConfusion h
  · intro id h
    have h2 : (0 : Nat) < 0 := h
    omega
  · intro id
    show (0 : Nat) ≤ 1
    omega
  · intro id qn h
    exact Option.noConfusion h
  · intro id pi h
    exact Option.noConfusion h

theorem wfEvents_cons (s : MState) (ev : MEvent) (rest : List MEvent)
    (h : wfEvents s (ev :: rest) = true) :
    wfGuard s ev = true ∧ wfEvents (stepM s ev) rest = true := by
  rw [wfEvents] at h
  exact Bool.and_eq_true_iff.mp h

theorem runEvents_append (s : MState) (l1 l2 : List MEvent) :
    runEvents s (l1 ++ l2) = runEvents (runEvents s l1) l2 := by
  simp [runEvents, List.foldl_append]

theorem wfEvents_append (s : MState) (l1 l2 : List MEvent) :
    wfEvents s (l1 ++ l2) = true ↔
      (wfEvents s l1 = true ∧ wfEvents (runEvents s l1) l2 = true) := by
  induction l1 generalizing s with
  | nil => simp [wfEvents, runEvents]
  | cons ev rest ih =>
    constructor
    · intro h
      obtain ⟨hc, hrest⟩ := wfEvents_cons s ev (rest ++ l2) h
      obtain ⟨h1, h2⟩ := (ih (stepM s ev)).mp hrest
      refine ⟨?_, ?_⟩
      · rw [wfEvents, Bool.and_eq_true_iff]
        exact ⟨hc, h1⟩
      · have hre : runEvents s (ev :: rest) = runEvents (stepM s ev) rest :=
          rfl
        rw [hre]
        exact h2
    · intro hpair
      obtain ⟨h1, h2⟩ := hpair
      obtain ⟨hc, hrest⟩ := wfEvents_cons s ev rest h1
      have h3 : wfEvents (stepM s ev) (rest ++ l2) = true := by
        refine (ih (stepM s ev)).mpr ⟨hrest, ?_⟩
        have hre : runEvents s (ev :: rest) = runEvents (stepM s ev) rest :=
          rfl
        rw [← hre]
        exact h2
      show wfEvents s (ev :: (rest ++ l2)) = true
      rw [wfEvents, Bool.and_eq_true_iff]
      exact ⟨hc, h3⟩

theorem minv_run (s : MState) (evs : List MEvent)
    (hwf : wfEvents s evs = true) (hinv : MInv s) :
    MInv (runEvents s evs) := by
  induction evs generalizing s with
  | nil => exact hinv
  | cons ev rest ih =>
    obtain ⟨hc, hrest⟩ := wfEvents_cons s ev rest hwf
    exact ih (stepM s ev) hrest (stepM_inv s ev hc hinv)

/-! ### Terminal operations are frozen (C2) -/

theorem retryOperation_store_ne (s : MState) (oid qn : String)
    (op : Operation) (e : OperationError) (now : Int) (id : String)
    (hne : oid ≠ id) :
    afind (retryOperation s oid qn op e now).store id = afind s.store id := by
  rw [retryOperation_eq]
  by_cases hrc : e.max_retries ≤ metaNat op.metadata "retry_count"
  · rw [if_pos hrc]
    exact finallyBlock_store_ne s oid qn now id hne
  · rw [if_neg hrc]
    dsimp only
    rw [afind_aset_ne _ _ _ _ hne]

theorem retryOperation_queues (s : MState) (oid qn : String) (op : Operation)
    (e : OperationError) (now : Int) :
    (retryOperation s oid qn op e now).queues = s.queues := by
  rw [retryOperation_eq]
  by_cases hrc : e.max_retries ≤ metaNat op.metadata "retry_count"
  · rw [if_pos hrc]
    exact finallyBlock_queues_eq s oid qn now
  · rw [if_neg hrc]

theorem errorPath_store_ne (s : MState) (oid qn : String) (op : Operation)
    (exc : PyExc) (now : Int) (id : String) (hne : oid ≠ id) :
    afind (errorPath s oid qn op exc now).store id = afind s.store id := by
  cases exc with
  | opError e =>
    rw [errorPath_opError_eq]
    by_cases hnr : e.retry_strategy = RetryStrategy.noRetry
    · rw [if_neg (fun hh => hh hnr)]
      rw [finallyBlock_store_ne _ _ _ _ _ hne]
      dsimp only
      rw [afind_aset_ne _ _ _ _ hne]
    · rw [if_pos hnr]
      rw [retryOperation_store_ne _ _ _ _ _ _ _ hne]
      dsimp only
      rw [afind_aset_ne _ _ _ _ hne]
  | other m =>
    rw [errorPath_other_eq]
    rw [retryOperation_store_ne _ _ _ _ _ _ _ hne]
    dsimp only
    rw [afind_aset_ne _ _ _ _ hne]

theorem errorPath_queues (s : MState) (oid qn : String) (op : Operation)
    (exc : PyExc) (now : Int) :
    (errorPath s oid qn op exc now).queues = s.queues := by
  cases exc with
  | opError e =>
    rw [errorPath_opError_eq]
    by_cases hnr : e.retry_strategy = RetryStrategy.noRetry
    · rw [if_neg (fun hh => hh hnr)]
      rw [finallyBlock_queues_eq]
    · rw [if_pos hnr]
      rw [retryOperation_queues]
  | other m =>
    rw [errorPath_other_eq, retryOperation_queues]

theorem stepM_terminal_frozen (s : MState) (ev : MEvent) (id : String)
    (op : Operation) (hinv : MInv s) (hwf : wfGuard s ev = true)
    (hop : afind s.store id = some op) (hterm : isTerminal op.status) :
    afind (stepM s ev).store id = some op ∧
      queuesCount (stepM s ev) id = 0 := by
  have hnq : op.status ≠ OperationStatus.queued := by
    rcases hterm with h | h | h <;> rw [h] <;>
      exact fun hh => OperationStatus.noConfusion hh
  have hnr : op.status ≠ OperationStatus.running := by
    rcases hterm with h | h | h <;> rw [h] <;>
      exact fun hh => OperationStatus.noConfusion hh
  have hnretry : op.status ≠ OperationStatus.retrying := by
    rcases hterm with h | h | h <;> rw [h] <;>
      exact fun hh => OperationStatus.noConfusion hh
  have hzero : queuesCount s id = 0 := by
    by_contra hne
    obtain ⟨op0, h0, hq0⟩ := hinv.queued_status id (Nat.pos_of_ne_zero hne)
    rw [hop] at h0
    cases h0
    exact hnq hq0
  cases ev with
  | register c =>
    rw [stepM_register_eq]
    by_cases hc : c ∈ s.handlers
    · rw [if_pos hc]
      exact ⟨hop, hzero⟩
    · rw [if_neg hc]
      exact ⟨hop, hzero⟩
  | enqueue op' qn =>
    have hfresh : afind s.store op'.id = none := by
      have h : (afind s.store op'.id).isNone = true := hwf
      rwa [Option.isNone_iff_eq_none] at h
    have hne : op'.id ≠ id := by
      intro he
      rw [he, hop] at hfresh
      cases hfresh
    constructor
    · rw [stepM_enqueue_eq]
      dsimp only
      rw [afind_aset_ne _ _ _ _ hne]
      exact hop
    · rw [enqueue_count]
      have hb : (op'.id == id) = false := by simp [hne]
      rw [hb, hzero]
      simp
  | beginProcess qn now =>
    cases hq : afind s.queues qn with
    | none =>
      rw [stepM_begin_none s qn now hq]
      exact ⟨hop, hzero⟩
    | some q =>
      cases hpop : heappop q.queue with
      | none =>
        rw [stepM_begin_empty s qn now hq hpop]
        exact ⟨hop, hzero⟩
      | some pr =>
        obtain ⟨e, h1⟩ := pr
        by_cases hact : e.oid ∈ s.active
        · rw [stepM_begin_active s qn now hq hpop hact]
          exact ⟨hop, hzero⟩
        · have hne : e.oid ≠ id := by
            intro he
            obtain ⟨op0, h0, hq0⟩ := begin_popped_queued s qn hinv hq hpop
            rw [he, hop] at h0
            cases h0
            exact hnq hq0
          have hcntzero : qlCount (aset s.queues qn ({ q with queue := h1 }))
              id = 0 := by
            have hc := begin_count s qn hq hpop id
            have hb : (e.oid == id) = false := by simp [hne]
            rw [hb] at hc
            have hz2 : qlCount s.queues id = 0 := hzero
            omega
          cases hst : afind s.store e.oid with
          | none =>
            rw [stepM_begin_nostore s qn now hq hpop hact hst]
            exact ⟨hop, hzero⟩
          | some op2 =>
            by_cases hcap : op2.capability ∈ s.handlers
            · rw [stepM_begin_handler s qn now hq hpop hact hst hcap]
              constructor
              · dsimp only
                rw [afind_aset_ne _ _ _ _ hne]
                exact hop
              · show qlCount (aset s.queues qn ({ q with queue := h1 })) id = 0
                exact hcntzero
            · rw [stepM_begin_nohandler s qn now hq hpop hact hst hcap]
              constructor
              · rw [finallyBlock_store_ne _ _ _ _ _ hne]
                dsimp only
                rw [afind_aset_ne _ _ _ _ hne]
                exact hop
              · unfold queuesCount
                rw [finallyBlock_queues_eq]
                dsimp only
                exact hcntzero
  | finishProcess oid outcome now =>
    cases hr : afind s.running oid with
    | none =>
      rw [stepM_finish_norun s oid outcome now hr]
      exact ⟨hop, hzero⟩
    | some qn =>
      cases hst : afind s.store oid with
      | none =>
        rw [stepM_finish_nostore s oid outcome now hst]
        exact ⟨hop, hzero⟩
      | some op2 =>
        have hne : oid ≠ id := by
          intro he
          obtain ⟨op0, h0, hr0⟩ := hinv.running_status oid qn hr
          rw [hst] at h0
          cases h0
          rw [he, hop] at hst
          cases hst
          exact hnr hr0
        constructor
        · cases outcome with
          | success r =>
            rw [stepM_finish_success s oid r now hr hst]
            rw [finallyBlock_store_ne _ _ _ _ _ hne]
            dsimp only
            rw [afind_aset_ne _ _ _ _ hne]
            exact hop
          | raiseOp e =>
            rw [stepM_finish_raiseOp s oid e now hr hst]
            rw [errorPath_store_ne _ _ _ _ _ _ _ hne]
            exact hop
          | raiseOther m =>
            rw [stepM_finish_raiseOther s oid m now hr hst]
            rw [errorPath_store_ne _ _ _ _ _ _ _ hne]
            exact hop
          | timeout =>
            rw [stepM_finish_timeout s oid now hr hst]
            rw [errorPath_store_ne _ _ _ _ _ _ _ hne]
            exact hop
        · cases outcome with
          | success r =>
            rw [stepM_finish_success s oid r now hr hst]
            unfold queuesCount
            rw [finallyBlock_queues_eq]
            exact hzero
          | raiseOp e =>
            rw [stepM_finish_raiseOp s oid e now hr hst]
            unfold queuesCount
            rw [errorPath_queues]
            exact hzero
          | raiseOther m =>
            rw [stepM_finish_raiseOther s oid m now hr hst]
            unfold queuesCount
            rw [errorPath_queues]
            exact hzero
          | timeout =>
            rw [stepM_finish_timeout s oid now hr hst]
            unfold queuesCount
            rw [errorPath_queues]
            exact hzero
  | completeRetry oid now =>
    cases hpe : afind s.pending oid with
    | none =>
      rw [stepM_cr_nopend s oid now hpe]
      exact ⟨hop, hzero⟩
    | some pi =>
      cases hst : afind s.store oid with
      | none =>
        rw [stepM_cr_nostore s oid now hst]
        exact ⟨hop, hzero⟩
      | some op2 =>
        have hne : oid ≠ id := by
          intro he
          obtain ⟨op0, h0, hp0⟩ := hinv.pending_status oid pi hpe
          rw [hst] at h0
          cases h0
          rw [he, hop] at hst
          cases hst
          exact hnretry hp0
        have hoid2 : op2.id = oid := hinv.store_id oid op2 hst
        rw [stepM_cr_eq s oid now hpe hst]
        constructor
        · rw [finallyBlock_store_ne _ _ _ _ _ hne]
          dsimp only
          rw [afind_aset_ne _ _ _ _ hne]
          exact hop
        · unfold queuesCount
          rw [finallyBlock_queues_eq]
          dsimp only
          have hc := push_count s.queues "default"
            (entryOf ({ op2 with status := OperationStatus.queued })) id
          have hent : (entryOf
              ({ op2 with status := OperationStatus.queued })).oid = op2.id :=
            rfl
          rw [hent] at hc
          have hb : (op2.id == id) = false := by simp [hoid2, hne]
          rw [hb] at hc
          simp at hc
          have hz2 : qlCount s.queues id = 0 := hzero
          omega

theorem terminal_frozen_run (s : MState) (post : List MEvent) (id : String)
    (op : Operation) (hinv : MInv s) (hwf : wfEvents s post = true)
    (hop : afind s.store id = some op) (hterm : isTerminal op.status) :
    afind (runEvents s post).store id = some op ∧
      queuesCount (runEvents s post) id = 0 := by
  induction post generalizing s with
  | nil =>
    refine ⟨hop, ?_⟩
    by_contra hne
    obtain ⟨op0, h0, hq0⟩ := hinv.queued_status id (Nat.pos_of_ne_zero hne)
    rw [hop] at h0
    cases h0
    rcases hterm with h | h | h <;> rw [h] at hq0 <;>
      exact OperationStatus.noConfusion hq0
  | cons ev rest ih =>
    obtain ⟨hc, hrest⟩ := wfEvents_cons s ev rest hwf
    obtain ⟨hop1, hz1⟩ := stepM_terminal_frozen s ev id op hinv hc hop hterm
    exact ih (stepM s ev) (stepM_inv s ev hc hinv) hrest hop1

/-- C2: once an operation's stored status is terminal (COMPLETED, FAILED or
CANCELLED), no further well-formed manager event ever changes its stored
record — in particular its status never returns to RUNNING — and the
operation sits in no queue (it is never re-enqueued; the only transition
that re-enqueues an operation is the explicit retry transition, which starts
from RETRYING, not from a terminal status). -/
theorem c2_terminal_invariant (pre post : List MEvent) (id : String)
    (op : Operation)
    (hwf : wfEvents ({}) (pre ++ post) = true)
    (hop : afind (runEvents ({}) pre).store id = some op)
    (hterm : isTerminal op.status) :
    afind (runEvents ({}) (pre ++ post)).store id = some op ∧
      op.status ≠ OperationStatus.running ∧
      queuesCount (runEvents ({}) (pre ++ post)) id = 0 := by
  obtain ⟨hwf1, hwf2⟩ := (wfEvents_append ({}) pre post).mp hwf
  have hinv := minv_run ({}) pre hwf1 minv_init
  have hmain := terminal_frozen_run (runEvents ({}) pre) post id op hinv hwf2
    hop hterm
  rw [runEvents_append]
  refine ⟨hmain.1, ?_, hmain.2⟩
  rcases hterm with h | h | h <;> rw [h] <;>
    exact fun hh => OperationStatus.noConfusion hh

/-- Witness for C2 on the concrete trace exPre ++ exPost: op1 completes,
then a second operation is enqueued and dispatched, and op1's record is
untouched and out of every queue. -/
theorem c2_terminal_invariant_witness :
    afind (runEvents ({}) (exPre ++ exPost)).store "op1" = some exDone ∧
      exDone.status ≠ OperationStatus.running ∧
      queuesCount (runEvents ({}) (exPre ++ exPost)) "op1" = 0 :=
  c2_terminal_invariant exPre exPost "op1" exDone
    (by
      simp [exPre, exPost, exOp, wfEvents, wfGuard, runEvents, stepM,
        finallyBlock, updateStats, errorPath, retryOperation, heappush,
        heappop, siftup, siftupLoop, siftdown, childSel, entryOf,
        priorityValue, hGet, eLT, dummyEntry, afind, aset, aremove, metaNat,
        calculateRetryDelay])
    (by
      simp [exPre, exOp, exDone, runEvents, stepM, finallyBlock, updateStats,
        heappush, heappop, siftup, siftupLoop, siftdown, childSel, entryOf,
        priorityValue, hGet, eLT, dummyEntry, afind, aset, aremove])
    (by decide)

/-- C7: dispatching an operation whose capability has no registered handler
sets it directly to FAILED with the no-handler configuration error, never
invokes any handler (the invocation log is unchanged), schedules no retry
(pending is unchanged) and leaves no outstanding handler await. -/
theorem c7_no_handler (s : MState) (qn : String) (now : Int)
    {q : PQState} {e : QEntry} {h1 : List QEntry} {op : Operation}
    (hq : afind s.queues qn = some q)
    (hpop : heappop q.queue = some (e, h1)) (hact : e.oid ∉ s.active)
    (hst : afind s.store e.oid = some op)
    (hcap : op.capability ∉ s.handlers) :
    afind (stepM s (MEvent.beginProcess qn now)).store e.oid =
      some ({ op with
        status := OperationStatus.failed,
        started_at := some now,
        error := some ("No handler found for capability: " ++ op.capability),
        completed_at := some now }) ∧
    (stepM s (MEvent.beginProcess qn now)).invocations = s.invocations ∧
    (stepM s (MEvent.beginProcess qn now)).pending = s.pending ∧
    afind (stepM s (MEvent.beginProcess qn now)).running e.oid = none := by
  rw [stepM_begin_nohandler s qn now hq hpop hact hst hcap]
  have hs3 : afind ({ s with
      queues := aset s.queues qn ({ q with queue := h1 }),
      store := aset s.store e.oid
        ({ op with
           status := OperationStatus.failed,
           started_at := some now,
           error := some ("No handler found for capability: " ++
             op.capability) }),
      active := e.oid :: s.active } : MState).store e.oid =
      some ({ op with
        status := OperationStatus.failed,
        started_at := some now,
        error := some ("No handler found for capability: " ++
          op.capability) }) := afind_aset_self _ _ _
  refine ⟨?_, ?_, ?_, ?_⟩
  · exact finallyBlock_store_self qn now hs3
  · rw [finallyBlock_invocations qn now hs3]
  · rw [finallyBlock_pending qn now hs3]
  · rw [finallyBlock_running qn now hs3]
    exact afind_aremove_self _ _

/-- Witness for C7: dispatching op1 from c7state (no handler registered)
fails it immediately with the no-handler error and no invocation, retry or
await. -/
theorem c7_no_handler_witness :
    afind (stepM c7state (MEvent.beginProcess "default" 5)).store "op1" =
      some ({ exOp "op1" 0 with
        status := OperationStatus.failed,
        started_at := some 5,
        error := some ("No handler found for capability: " ++
          (exOp "op1" 0).capability),
        completed_at := some 5 }) ∧
    (stepM c7state (MEvent.beginProcess "default" 5)).invocations =
      c7state.invocations ∧
    (stepM c7state (MEvent.beginProcess "default" 5)).pending =
      c7state.pending ∧
    afind (stepM c7state (MEvent.beginProcess "default" 5)).running "op1" =
      none :=
  c7_no_handler c7state "default" 5 (by rfl) (by rfl) (by decide) (by rfl)
    (by decide)

/-- C8: a handler exception that is not a classified OperationError is
handled exactly like OperationError(str(e), EXPONENTIAL_BACKOFF,
max_retries 3): the step function is total (the exception never escapes the
dispatch loop), and with fewer than 3 recorded retries the operation is
marked RETRYING with the exponential-backoff delay scheduled. -/
theorem c8_unclassified_execution (s : MState) (oid m : String) (now : Int)
    {qn : String} {op : Operation}
    (hr : afind s.running oid = some qn)
    (hst : afind s.store oid = some op)
    (hrc : metaNat op.metadata "retry_count" < 3) :
    stepM s (MEvent.finishProcess oid (HandlerOutcome.raiseOther m) now) =
      stepM s (MEvent.finishProcess oid (HandlerOutcome.raiseOp
        ({ message := m, code := ErrorCode.unknown,
           retry_strategy := RetryStrategy.exponentialBackoff,
           max_retries := 3 })) now) ∧
    afind (stepM s (MEvent.finishProcess oid
        (HandlerOutcome.raiseOther m) now)).pending oid =
      some
        ({ delay := calculateRetryDelay RetryStrategy.exponentialBackoff
             (metaNat op.metadata "retry_count" + 1) 1,
           qname := qn }) ∧
    afind (stepM s (MEvent.finishProcess oid
        (HandlerOutcome.raiseOther m) now)).store oid =
      some ({ op with
        status := OperationStatus.retrying,
        error := some m,
        metadata := aset op.metadata "retry_count"
          (MetaVal.natV (metaNat op.metadata "retry_count" + 1)) }) := by
  have hnle :
      ¬(({ message := m, code := ErrorCode.unknown,
           retry_strategy := RetryStrategy.exponentialBackoff,
           max_retries := 3 } : OperationError).max_retries ≤
        metaNat
          ({ op with
             status := OperationStatus.failed,
             error := some m } : Operation).metadata "retry_count") := by
    intro hle
    have hle2 : 3 ≤ metaNat op.metadata "retry_count" := hle
    omega
  have hne8 :
      ({ message := m, code := ErrorCode.unknown,
         retry_strategy := RetryStrategy.exponentialBackoff,
         max_retries := 3 } : OperationError).retry_strategy ≠
      RetryStrategy.noRetry := by
    intro hh
    exact RetryStrategy.noConfusion hh
  refine ⟨?_, ?_, ?_⟩
  · rw [stepM_finish_raiseOther s oid m now hr hst,
      stepM_finish_raiseOp s oid _ now hr hst,
      errorPath_other_eq, errorPath_opError_eq,
      if_pos hne8]
  · rw [stepM_finish_raiseOther s oid m now hr hst, errorPath_other_eq,
      retryOperation_eq, if_neg hnle]
    dsimp only
    exact afind_aset_self _ _ _
  · rw [stepM_finish_raiseOther s oid m now hr hst, errorPath_other_eq,
      retryOperation_eq, if_neg hnle]
    dsimp only
    exact afind_aset_self _ _ _

/-- Witness for C8 on c8state: op1's handler raises a plain exception and
the operation is scheduled for exponential-backoff retry exactly as for the
wrapped OperationError. -/
theorem c8_unclassified_execution_witness :
    stepM c8state (MEvent.finishProcess "op1"
        (HandlerOutcome.raiseOther "kaboom") 20) =
      stepM c8state (MEvent.finishProcess "op1" (HandlerOutcome.raiseOp
        ({ message := "kaboom", code := ErrorCode.unknown,
           retry_strategy := RetryStrategy.exponentialBackoff,
           max_retries := 3 })) 20) ∧
    afind (stepM c8state (MEvent.finishProcess "op1"
        (HandlerOutcome.raiseOther "kaboom") 20)).pending "op1" =
      some
        ({ delay := calculateRetryDelay RetryStrategy.exponentialBackoff
             (metaNat c8op.metadata "retry_count" + 1) 1,
           qname := "default" }) ∧
    afind (stepM c8state (MEvent.finishProcess "op1"
        (HandlerOutcome.raiseOther "kaboom") 20)).store "op1" =
      some ({ c8op with
        status := OperationStatus.retrying,
        error := some "kaboom",
        metadata := aset c8op.metadata "retry_count"
          (MetaVal.natV (metaNat c8op.metadata "retry_count" + 1)) }) :=
  c8_unclassified_execution c8state "op1" "kaboom" 20 (by rfl) (by rfl)
    (by decide)

theorem cr_store_and_count (s : MState) (oid : String) (now2 : Int)
    {pi : PendInfo} {op : Operation}
    (hp : afind s.pending oid = some pi)
    (hst : afind s.store oid = some op)
    (hoid : op.id = oid) :
    afind (stepM s (MEvent.completeRetry oid now2)).store oid =
      some
        ({ op with
           status := OperationStatus.queued,
           completed_at := some now2 }) ∧
    queuesCount (stepM s (MEvent.completeRetry oid now2)) oid =
      queuesCount s oid + 1 := by
  rw [stepM_cr_eq s oid now2 hp hst]
  constructor
  · have hs2 : afind ({ s with
        store := aset s.store oid
          ({ op with status := OperationStatus.queued }),
        queues := aset s.queues "default"
          ({ queue := heappush ((afind s.queues "default").getD ({})).queue
              (entryOf ({ op with status := OperationStatus.queued })),
             entry_count :=
               ((afind s.queues "default").getD ({})).entry_count + 1 }),
        pending := aremove s.pending oid } : MState).store oid =
        some ({ op with status := OperationStatus.queued }) :=
      afind_aset_self _ _ _
    exact finallyBlock_store_self (pi.qname) now2 hs2
  · unfold queuesCount
    rw [finallyBlock_queues_eq]
    dsimp only
    rw [push_count]
    have hent : (entryOf ({ op with status := OperationStatus.queued })).oid
        = oid := hoid
    rw [hent]
    simp

/-- C4 counterexample: with retry_count already equal to max_retries the
failed operation is left FAILED, and no final_error entry is ever written
into its metadata (the metadata still holds only retry_count). -/
theorem c4_counterexample :
    afind (stepM c4state (MEvent.finishProcess "op1"
        (HandlerOutcome.raiseOp c4err) 20)).store "op1" =
      some ({ c4op with
        status := OperationStatus.failed,
        error := some "boom",
        completed_at := some 20 }) ∧
    afind ({ c4op with
        status := OperationStatus.failed,
        error := some "boom",
        completed_at := some 20 } : Operation).metadata "final_error" =
      none := by
  decide

/-- C4 (amended): for a failed operation with a classified retryable error,
with rc = metadata retry_count and attempt = rc + 1: if attempt >
max_retries the operation ends FAILED with its metadata unchanged (no
final_error is recorded) and is not re-enqueued; otherwise retry_count is
set to attempt, the status becomes RETRYING, the computed delay is
scheduled, and only when the sleep expires is the operation re-enqueued
with status QUEUED, into the "default" queue. -/
theorem c4_retry_decision (s : MState) (oid : String) (e : OperationError)
    (now now2 : Int) {qn : String} {op : Operation}
    (hr : afind s.running oid = some qn)
    (hst : afind s.store oid = some op)
    (hoid : op.id = oid)
    (hnr : e.retry_strategy ≠ RetryStrategy.noRetry) :
    (e.max_retries ≤ metaNat op.metadata "retry_count" →
      afind (stepM s (MEvent.finishProcess oid
          (HandlerOutcome.raiseOp e) now)).store oid =
        some ({ op with
          status := OperationStatus.failed,
          error := some e.message,
          completed_at := some now }) ∧
      (stepM s (MEvent.finishProcess oid
          (HandlerOutcome.raiseOp e) now)).pending = s.pending ∧
      (stepM s (MEvent.finishProcess oid
          (HandlerOutcome.raiseOp e) now)).queues = s.queues) ∧
    (metaNat op.metadata "retry_count" < e.max_retries →
      afind (stepM s (MEvent.finishProcess oid
          (HandlerOutcome.raiseOp e) now)).store oid =
        some ({ op with
          status := OperationStatus.retrying,
          error := some e.message,
          metadata := aset op.metadata "retry_count"
            (MetaVal.natV (metaNat op.metadata "retry_count" + 1)) }) ∧
      afind (stepM s (MEvent.finishProcess oid
          (HandlerOutcome.raiseOp e) now)).pending oid =
        some
          ({ delay := calculateRetryDelay e.retry_strategy
               (metaNat op.metadata "retry_count" + 1) 1,
             qname := qn }) ∧
      (stepM s (MEvent.finishProcess oid
          (HandlerOutcome.raiseOp e) now)).queues = s.queues ∧
      afind (stepM (stepM s (MEvent.finishProcess oid
          (HandlerOutcome.raiseOp e) now))
          (MEvent.completeRetry oid now2)).store oid =
        some ({ op with
          status := OperationStatus.queued,
          error := some e.message,
          metadata := aset op.metadata "retry_count"
            (MetaVal.natV (metaNat op.metadata "retry_count" + 1)),
          completed_at := some now2 }) ∧
      queuesCount (stepM (stepM s (MEvent.finishProcess oid
          (HandlerOutcome.raiseOp e) now))
          (MEvent.completeRetry oid now2)) oid =
        queuesCount s oid + 1) := by
  constructor
  · intro hge
    have hge' : e.max_retries ≤ metaNat
        ({ op with
           status := OperationStatus.failed,
           error := some e.message } : Operation).metadata "retry_count" :=
      hge
    rw [stepM_finish_raiseOp s oid e now hr hst, errorPath_opError_eq,
      if_pos hnr, retryOperation_eq, if_pos hge']
    have hs1 : afind ({ s with
        store := aset s.store oid
          ({ op with
             status := OperationStatus.failed,
             error := some e.message }) } : MState).store oid =
        some ({ op with
          status := OperationStatus.failed,
          error := some e.message }) := afind_aset_self _ _ _
    refine ⟨?_, ?_, ?_⟩
    · exact finallyBlock_store_self qn now hs1
    · rw [finallyBlock_pending qn now hs1]
    · rw [finallyBlock_queues qn now hs1]
  · intro hlt
    have hnle : ¬(e.max_retries ≤ metaNat
        ({ op with
           status := OperationStatus.failed,
           error := some e.message } : Operation).metadata "retry_count") := by
      intro hle
      have hle2 : e.max_retries ≤ metaNat op.metadata "retry_count" := hle
      omega
    have hstoreR : afind (stepM s (MEvent.finishProcess oid
        (HandlerOutcome.raiseOp e) now)).store oid =
        some ({ op with
          status := OperationStatus.retrying,
          error := some e.message,
          metadata := aset op.metadata "retry_count"
            (MetaVal.natV (metaNat op.metadata "retry_count" + 1)) }) := by
      rw [stepM_finish_raiseOp s oid e now hr hst, errorPath_opError_eq,
        if_pos hnr, retryOperation_eq, if_neg hnle]
      dsimp only
      exact afind_aset_self _ _ _
    have hpendR : afind (stepM s (MEvent.finishProcess oid
        (HandlerOutcome.raiseOp e) now)).pending oid =
        some
          ({ delay := calculateRetryDelay e.retry_strategy
               (metaNat op.metadata "retry_count" + 1) 1,
             qname := qn }) := by
      rw [stepM_finish_raiseOp s oid e now hr hst, errorPath_opError_eq,
        if_pos hnr, retryOperation_eq, if_neg hnle]
      dsimp only
      exact afind_aset_self _ _ _
    have hqR : (stepM s (MEvent.finishProcess oid
        (HandlerOutcome.raiseOp e) now)).queues = s.queues := by
      rw [stepM_finish_raiseOp s oid e now hr hst]
      rw [errorPath_queues]
    have hcr := cr_store_and_count
      (stepM s (MEvent.finishProcess oid (HandlerOutcome.raiseOp e) now))
      oid now2 hpendR hstoreR hoid
    refine ⟨hstoreR, hpendR, hqR, hcr.1, ?_⟩
    rw [hcr.2]
    unfold queuesCount
    rw [hqR]

/-- Witness for C4 on c8state (retry_count 0, max_retries 3): the retry
branch applies, op1 becomes RETRYING with retry_count 1 and the exponential
delay scheduled, and the expiry of the sleep re-enqueues it QUEUED into the
default queue. -/
theorem c4_retry_decision_witness :
    (c4err.max_retries ≤ metaNat c8op.metadata "retry_count" →
      afind (stepM c8state (MEvent.finishProcess "op1"
          (HandlerOutcome.raiseOp c4err) 20)).store "op1" =
        some ({ c8op with
          status := OperationStatus.failed,
          error := some c4err.message,
          completed_at := some 20 }) ∧
      (stepM c8state (MEvent.finishProcess "op1"
          (HandlerOutcome.raiseOp c4err) 20)).pending = c8state.pending ∧
      (stepM c8state (MEvent.finishProcess "op1"
          (HandlerOutcome.raiseOp c4err) 20)).queues = c8state.queues) ∧
    (metaNat c8op.metadata "retry_count" < c4err.max_retries →
      afind (stepM c8state (MEvent.finishProcess "op1"
          (HandlerOutcome.raiseOp c4err) 20)).store "op1" =
        some ({ c8op with
          status := OperationStatus.retrying,
          error := some c4err.message,
          metadata := aset c8op.metadata "retry_count"
            (MetaVal.natV (metaNat c8op.metadata "retry_count" + 1)) }) ∧
      afind (stepM c8state (MEvent.finishProcess "op1"
          (HandlerOutcome.raiseOp c4err) 20)).pending "op1" =
        some
          ({ delay := calculateRetryDelay c4err.retry_strategy
               (metaNat c8op.metadata "retry_count" + 1) 1,
             qname := "default" }) ∧
      (stepM c8state (MEvent.finishProcess "op1"
          (HandlerOutcome.raiseOp c4err) 20)).queues = c8state.queues ∧
      afind (stepM (stepM c8state (MEvent.finishProcess "op1"
          (HandlerOutcome.raiseOp c4err) 20))
          (MEvent.completeRetry "op1" 25)).store "op1" =
        some ({ c8op with
          status := OperationStatus.queued,
          error := some c4err.message,
          metadata := aset c8op.metadata "retry_count"
            (MetaVal.natV (metaNat c8op.metadata "retry_count" + 1)),
          completed_at := some 25 }) ∧
      queuesCount (stepM (stepM c8state (MEvent.finishProcess "op1"
          (HandlerOutcome.raiseOp c4err) 20))
          (MEvent.completeRetry "op1" 25)) "op1" =
        queuesCount c8state "op1" + 1) :=
  c4_retry_decision c8state "op1" c4err 20 25 (by rfl) (by rfl) (by rfl)
    (by decide)

/-- C9: PriorityQueue.remove reaches heapq.heappop(self.queue[i]) — heappop
applied to the matched tuple, not the list — so removing a queued operation
raises AttributeError instead of removing it and marking it CANCELLED; only
the no-match fall-through returns None. -/
theorem c9_remove_raises :
    pqRemove [⟨1, 0, "op1"⟩] "op1" =
      Except.error "AttributeError: tuple object has no attribute pop" ∧
    pqRemove [⟨1, 0, "op1"⟩] "absent" = Except.ok none := by
  refine ⟨?_, ?_⟩ <;> rfl

theorem stepM_queues_none (s : MState) (ev : MEvent) (qn : String)
    (hmay : mayEnqueueTo qn ev = false)
    (hq : afind s.queues qn = none) :
    afind (stepM s ev).queues qn = none := by
  cases ev with
  | register c =>
    rw [stepM_register_eq]
    by_cases hc : c ∈ s.handlers
    · rw [if_pos hc]
      exact hq
    · rw [if_neg hc]
      exact hq
  | enqueue op qn' =>
    have h : (qn' == qn) = false := hmay
    have hne : qn' ≠ qn := by simpa using h
    rw [stepM_enqueue_eq]
    dsimp only
    rw [afind_aset_ne _ _ _ _ hne]
    exact hq
  | beginProcess qn' now =>
    cases hq2 : afind s.queues qn' with
    | none =>
      rw [stepM_begin_none s qn' now hq2]
      exact hq
    | some q =>
      cases hpop : heappop q.queue with
      | none =>
        rw [stepM_begin_empty s qn' now hq2 hpop]
        exact hq
      | some pr =>
        obtain ⟨e, h1⟩ := pr
        have hne : qn' ≠ qn := by
          intro he
          rw [he, hq] at hq2
          cases hq2
        by_cases hact : e.oid ∈ s.active
        · rw [stepM_begin_active s qn' now hq2 hpop hact]
          exact hq
        · cases hst : afind s.store e.oid with
          | none =>
            rw [stepM_begin_nostore s qn' now hq2 hpop hact hst]
            exact hq
          | some op =>
            by_cases hcap : op.capability ∈ s.handlers
            · rw [stepM_begin_handler s qn' now hq2 hpop hact hst hcap]
              dsimp only
              rw [afind_aset_ne _ _ _ _ hne]
              exact hq
            · rw [stepM_begin_nohandler s qn' now hq2 hpop hact hst hcap]
              rw [finallyBlock_queues_eq]
              dsimp only
              rw [afind_aset_ne _ _ _ _ hne]
              exact hq
  | finishProcess oid outcome now =>
    cases hr : afind s.running oid with
    | none =>
      rw [stepM_finish_norun s oid outcome now hr]
      exact hq
    | some qn2 =>
      cases hst : afind s.store oid with
      | none =>
        rw [stepM_finish_nostore s oid outcome now hst]
        exact hq
      | some op =>
        cases outcome with
        | success r =>
          rw [stepM_finish_success s oid r now hr hst]
          rw [finallyBlock_queues_eq]
          exact hq
        | raiseOp e2 =>
          rw [stepM_finish_raiseOp s oid e2 now hr hst]
          rw [errorPath_queues]
          exact hq
        | raiseOther m =>
          rw [stepM_finish_raiseOther s oid m now hr hst]
          rw [errorPath_queues]
          exact hq
        | timeout =>
          rw [stepM_finish_timeout s oid now hr hst]
          rw [errorPath_queues]
          exact hq
  | completeRetry oid now =>
    have h : (qn == "default") = false := hmay
    have hqd : qn ≠ "default" := by simpa using h
    have hne : "default" ≠ qn := fun he => hqd he.symm
    cases hpe : afind s.pending oid with
    | none =>
      rw [stepM_cr_nopend s oid now hpe]
      exact hq
    | some pi =>
      cases hst : afind s.store oid with
      | none =>
        rw [stepM_cr_nostore s oid now hst]
        exact hq
      | some op =>
        rw [stepM_cr_eq s oid now hpe hst]
        rw [finallyBlock_queues_eq]
        dsimp only
        rw [afind_aset_ne _ _ _ _ hne]
        exact hq

theorem runEvents_queues_none (s : MState) (evs : List MEvent) (qn : String)
    (hmay : evs.all (fun ev => !(mayEnqueueTo qn ev)) = true)
    (hq : afind s.queues qn = none) :
    afind (runEvents s evs).queues qn = none := by
  induction evs generalizing s with
  | nil => exact hq
  | cons ev rest ih =>
    rw [List.all_cons, Bool.and_eq_true_iff] at hmay
    obtain ⟨h1, h2⟩ := hmay
    have h1' : mayEnqueueTo qn ev = false := by simpa using h1
    exact ih (stepM s ev) h2 (stepM_queues_none s ev qn h1' hq)

/-- C10: for a queue name that no event ever enqueued to, get_queue_status
returns the well-formed all-defaults snapshot for that name — every count
zero — rather than raising or returning nothing. -/
theorem c10_unknown_queue_snapshot (evs : List MEvent) (qn : String)
    (hmay : evs.all (fun ev => !(mayEnqueueTo qn ev)) = true) :
    getQueueStatus (runEvents ({}) evs) qn = ({ queue_name := qn }) ∧
    (getQueueStatus (runEvents ({}) evs) qn).total_operations = 0 ∧
    (getQueueStatus (runEvents ({}) evs) qn).active_operations = 0 ∧
    (getQueueStatus (runEvents ({}) evs) qn).waiting_operations = 0 ∧
    (getQueueStatus (runEvents ({}) evs) qn).completed_operations = 0 ∧
    (getQueueStatus (runEvents ({}) evs) qn).failed_operations = 0 := by
  have h := runEvents_queues_none ({}) evs qn hmay rfl
  have hg : getQueueStatus (runEvents ({}) evs) qn =
      ({ queue_name := qn }) := by
    simp [getQueueStatus, h]
  refine ⟨hg, ?_, ?_, ?_, ?_, ?_⟩ <;> rw [hg]

/-- Witness for C10: after the exPre trace (which only touches the default
queue) the snapshot of the never-used queue name nosuch is the all-zero
default record. -/
theorem c10_unknown_queue_snapshot_witness :
    getQueueStatus (runEvents ({}) exPre) "nosuch" =
      ({ queue_name := "nosuch" }) ∧
    (getQueueStatus (runEvents ({}) exPre) "nosuch").total_operations = 0 ∧
    (getQueueStatus (runEvents ({}) exPre) "nosuch").active_operations = 0 ∧
    (getQueueStatus (runEvents ({}) exPre) "nosuch").waiting_operations = 0 ∧
    (getQueueStatus (runEvents ({}) exPre) "nosuch").completed_operations
      = 0 ∧
    (getQueueStatus (runEvents ({}) exPre) "nosuch").failed_operations = 0 :=
  c10_unknown_queue_snapshot exPre "nosuch" (by decide)
